import Mathlib

/-!
Verification development for the NaraJangTeo lead-miner pipeline
(`g2b_lead_miner.py`).  The Python source is shallowly embedded: pure
functions become Lean functions over `List Char` / `ℚ` / `ℝ`, the `dict`
used for deduplication and the counters become insertion-ordered
association lists, `datetime` becomes a Gregorian calendar record with a
minute-resolution linearisation, and the network retry loop becomes a
function of an abstract response sequence.  Floating point arithmetic of
the scoring function is modelled as exact real arithmetic.
-/

namespace G2B

/-! ### Character and substring utilities (model of the `re` searches)

The include/exclude vocabularies are literal substrings except `\bOD\b`,
which needs word boundaries.  Python's case-insensitive flag only affects
the ASCII vocabulary entries (`HRD`, `OD`); Korean has no case.
-/

/-- Word characters for the regex `\b` boundary: ASCII alphanumerics,
underscore and Hangul syllables (the character classes occurring in the
notice vocabulary). -/
def isWordChar (c : Char) : Bool :=
  c.isAlphanum || c == '_' || (0xAC00 ≤ c.toNat && c.toNat ≤ 0xD7A3)

/-- Characters treated as whitespace by `str.strip` and the `\s` class. -/
def wsChar (c : Char) : Bool :=
  c == ' ' || c == '\t' || c == '\n' || c == '\r' || c == '\x0b' || c == '\x0c'

def lowerStr (l : List Char) : List Char := l.map Char.toLower

/-- Does `pat` occur at the head of `txt`? -/
def prefixHit : List Char → List Char → Bool
  | [], _ => true
  | _ :: _, [] => false
  | p :: ps, c :: cs => p == c && prefixHit ps cs

/-- Does `pat` occur anywhere inside `txt` (plain substring search)? -/
def subSearch (pat : List Char) : List Char → Bool
  | [] => prefixHit pat []
  | c :: cs => prefixHit pat (c :: cs) || subSearch pat cs

/-- Case-insensitive literal search, the model of `re.search` on a
pattern with no metacharacters under `re.IGNORECASE`. -/
def searchLit (pat : String) (txt : List Char) : Bool :=
  subSearch (lowerStr pat.data) (lowerStr txt)

/-- Scan for `\bOD\b` (case-insensitive): an `o`,`d` pair with no word
character on either side.  `prev` is the character preceding the scan
position (`none` at the start of the text). -/
def searchODAux : Option Char → List Char → Bool
  | _, [] => false
  | prev, c :: cs =>
    ((match prev with
      | none => true
      | some p => !(isWordChar p)) &&
     c.toLower == 'o' &&
     (match cs with
      | d :: rest =>
        d.toLower == 'd' &&
        (match rest with
         | [] => true
         | e :: _ => !(isWordChar e))
      | [] => false))
    || searchODAux (some c) cs

/-- One entry of the include/exclude pattern lists: either a literal
(case-insensitively searched) pattern or the word-bounded `\bOD\b`. -/
inductive Pat
  | lit (s : String)
  | wordOD
deriving DecidableEq

def patSearch (p : Pat) (txt : List Char) : Bool :=
  match p with
  | .lit s => searchLit s txt
  | .wordOD => searchODAux none txt

/-- `INCLUDE_PATTERNS` from the source, in order. -/
def INCLUDE_PATTERNS : List Pat :=
  [.lit ("HRD"), .lit ("교육"), .lit ("연수"), .lit ("훈련"), .lit ("강사"),
   .lit ("워크숍"), .lit ("세미나"), .lit ("코칭"), .lit ("리더십"),
   .lit ("직무역량"), .lit ("역량"), .lit ("조직진단"), .lit ("조직문화"),
   .wordOD, .lit ("성과평가"), .lit ("평가제도"), .lit ("인사제도"),
   .lit ("컨설팅")]

/-- `EXCLUDE_PATTERNS` from the source, in order. -/
def EXCLUDE_PATTERNS : List Pat :=
  [.lit ("시설"), .lit ("소방"), .lit ("전기"), .lit ("청소"), .lit ("급식"),
   .lit ("안전점검"), .lit ("조경"), .lit ("도로")]

/-- Python `str.strip`: drop leading and trailing whitespace. -/
def stripStr (l : List Char) : List Char :=
  ((l.dropWhile wsChar).reverse.dropWhile wsChar).reverse

/-- The refinement regex `조직진단|조직문화|\bOD\b|변화관리`. -/
def odRefineSearch (txt : List Char) : Bool :=
  searchLit ("조직진단") txt || searchLit ("조직문화") txt ||
  searchODAux none txt || searchLit ("변화관리") txt

/-- The refinement regex `평가|성과|역량모델|직무체계|인사제도`. -/
def evalRefineSearch (txt : List Char) : Bool :=
  searchLit ("평가") txt || searchLit ("성과") txt || searchLit ("역량모델") txt ||
  searchLit ("직무체계") txt || searchLit ("인사제도") txt

/-- `match_category` from the source: returns (category, strength,
include hits).  Strengths are the exact decimal constants of the code. -/
def match_category (title : String) : String × ℚ × List Pat :=
  let txt := stripStr title.data
  if txt = [] then ("미지정", 0, [])
  else
    let include_hits := INCLUDE_PATTERNS.filter (fun p => patSearch p txt)
    let exclude_hits := EXCLUDE_PATTERNS.filter (fun p => patSearch p txt)
    if include_hits = [] then ("비대상", 0, [])
    else if exclude_hits ≠ [] ∧ include_hits.length ≤ exclude_hits.length then
      ("보류(노이즈 가능)", 0.45, include_hits)
    else if odRefineSearch txt then ("OD/조직", 0.84, include_hits)
    else if evalRefineSearch txt then ("평가/제도", 0.78, include_hits)
    else ("HRD/교육", 0.72, include_hits)

/-! ### RawNotice and deduplication -/

/-- `RawNotice` dataclass.  The budget is a nullable number (`ℚ` models
the Python float exactly on the decimal inputs the parser produces). -/
structure RawNotice where
  bid_ntce_no : String
  bid_ntce_ord : String
  notice_title : String
  work_type : String
  agency_name : String
  notice_date : String
  deadline_dt : String
  budget_amt : Option ℚ
  source_url : String
deriving DecidableEq

/-- The natural key of a notice: (identifier, amendment ordinal). -/
def noticeKey (n : RawNotice) : String × String := (n.bid_ntce_no, n.bid_ntce_ord)

/-- Model of `dict.__setitem__` on an insertion-ordered association
list: an existing key keeps its position and gets the new value, a new
key is appended. -/
def dictInsert (m : List ((String × String) × RawNotice)) (k : String × String)
    (v : RawNotice) : List ((String × String) × RawNotice) :=
  match m with
  | [] => [(k, v)]
  | e :: rest => if e.1 = k then (k, v) :: rest else e :: dictInsert rest k v

/-- `dedupe_notices` from the source: build the dict keyed by
`noticeKey` (last write wins) and return its values. -/
def dedupe_notices (notices : List RawNotice) : List RawNotice :=
  (notices.foldl (fun m n => dictInsert m (noticeKey n) n) []).map (fun e => e.2)

/-- The last element of `ns` carrying key `k`, if any. -/
def lastWithKey (ns : List RawNotice) (k : String × String) : Option RawNotice :=
  (ns.filter (fun n => noticeKey n = k)).getLast?

/-- First-occurrence deduplication of a key list: the order in which
distinct keys are first inserted. -/
def keepFirst : List (String × String) → List (String × String)
  | [] => []
  | k :: ks => k :: keepFirst (ks.filter (fun j => j ≠ k))
termination_by l => l.length
decreasing_by
  simp only [List.length_cons]
  exact Nat.lt_succ_of_le (List.length_filter_le _ _)

/-! ### Calendar model of `datetime`

The pipeline manipulates datetimes at minute resolution (the window
iterator steps by `timedelta(minutes=1)` / `timedelta(days=1)` and the
API format is `YYYYMMDDHHMM`).  A datetime is a Gregorian calendar
record; `toMin` linearises a datetime into minutes since the epoch
`0001-01-01 00:00`, matching Python's proleptic Gregorian ordinals. -/

structure DateTime where
  year : ℕ
  month : ℕ
  day : ℕ
  hour : ℕ
  minute : ℕ
deriving DecidableEq

/-- Gregorian leap year test. -/
def isLeap (y : ℕ) : Bool := (y % 4 == 0 && y % 100 != 0) || y % 400 == 0

/-- Days in a month of a given year. -/
def daysInMonth (y m : ℕ) : ℕ :=
  if m = 2 then (if isLeap y then 29 else 28)
  else if m = 4 ∨ m = 6 ∨ m = 9 ∨ m = 11 then 30
  else 31

/-- Cumulative day counts before each month in a non-leap year. -/
def cumDays (m : ℕ) : ℕ :=
  match m with
  | 0 => 0 | 1 => 0 | 2 => 31 | 3 => 59 | 4 => 90 | 5 => 120 | 6 => 151
  | 7 => 181 | 8 => 212 | 9 => 243 | 10 => 273 | 11 => 304 | 12 => 334
  | _ + 13 => 365

/-- Days of the year `y` that precede month `m`. -/
def daysBeforeMonth (y m : ℕ) : ℕ :=
  cumDays m + (if 3 ≤ m ∧ isLeap y then 1 else 0)

/-- Number of leap years in `1..n`. -/
def leapCount (n : ℕ) : ℕ := n / 4 + n / 400 - n / 100

/-- Days preceding January 1 of year `y` (counting from year 1). -/
def daysBeforeYear (y : ℕ) : ℕ := 365 * (y - 1) + leapCount (y - 1)

/-- Proleptic Gregorian day index of a datetime (0 = 0001-01-01). -/
def toDay (c : DateTime) : ℕ :=
  daysBeforeYear c.year + daysBeforeMonth c.year c.month + (c.day - 1)

/-- Minute linearisation of a datetime. -/
def toMin (c : DateTime) : ℕ := toDay c * 1440 + c.hour * 60 + c.minute

/-- The calendar-validity invariant `datetime` enforces (year bounded
below; the model is proleptic and unbounded above). -/
def ValidDT (c : DateTime) : Prop :=
  1 ≤ c.year ∧ 1 ≤ c.month ∧ c.month ≤ 12 ∧ 1 ≤ c.day ∧
  c.day ≤ daysInMonth c.year c.month ∧ c.hour ≤ 23 ∧ c.minute ≤ 59

instance (c : DateTime) : Decidable (ValidDT c) := by
  unfold ValidDT; infer_instance

/-- `cursor + timedelta(days=1)` on a valid datetime. -/
def addOneDay (c : DateTime) : DateTime :=
  if c.day < daysInMonth c.year c.month then
    ⟨c.year, c.month, c.day + 1, c.hour, c.minute⟩
  else if c.month < 12 then ⟨c.year, c.month + 1, 1, c.hour, c.minute⟩
  else ⟨c.year + 1, 1, 1, c.hour, c.minute⟩

/-- `datetime(year+1, 1, 1)` / `datetime(year, month+1, 1)` as in the
monthly branch of `iter_windows`. -/
def nextMonthFirst (c : DateTime) : DateTime :=
  if c.month = 12 then ⟨c.year + 1, 1, 1, 0, 0⟩ else ⟨c.year, c.month + 1, 1, 0, 0⟩

/-- `x - timedelta(minutes=1)` on a valid datetime. -/
def subOneMinute (c : DateTime) : DateTime :=
  if 1 ≤ c.minute then ⟨c.year, c.month, c.day, c.hour, c.minute - 1⟩
  else if 1 ≤ c.hour then ⟨c.year, c.month, c.day, c.hour - 1, 59⟩
  else if 2 ≤ c.day then ⟨c.year, c.month, c.day - 1, 23, 59⟩
  else if 2 ≤ c.month then ⟨c.year, c.month - 1, daysInMonth c.year (c.month - 1), 23, 59⟩
  else ⟨c.year - 1, 12, 31, 23, 59⟩

/-- Python `min` on datetimes (minute order). -/
def dtMin (a b : DateTime) : DateTime := if toMin a ≤ toMin b then a else b

section CalendarLemmas

/-- A year has 365 days plus the leap day. -/
theorem daysInYear_eq (y : ℕ) :
    daysBeforeMonth y 12 + daysInMonth y 12 = 365 + (if isLeap y then 1 else 0) := by
  cases h : isLeap y <;> simp [daysBeforeMonth, daysInMonth, cumDays, h]

/-- Month-to-month step of the cumulative day count. -/
theorem daysBeforeMonth_succ (y m : ℕ) (h1 : 1 ≤ m) (h2 : m ≤ 11) :
    daysBeforeMonth y (m + 1) = daysBeforeMonth y m + daysInMonth y m := by
  interval_cases m <;> cases h : isLeap y <;>
    simp [daysBeforeMonth, daysInMonth, cumDays, h]

/-- The step of the leap-year counter. -/
theorem leapCount_succ (k : ℕ) :
    leapCount (k + 1) = leapCount k + (if isLeap (k + 1) then 1 else 0) := by
  have h4 := Nat.succ_div k 4
  have h100 := Nat.succ_div k 100
  have h400 := Nat.succ_div k 400
  have hd1 : k / 100 ≤ k / 4 := Nat.div_le_div_left (by norm_num) (by norm_num)
  have hiff : isLeap (k + 1) = true ↔
      ((k + 1) % 4 = 0 ∧ (k + 1) % 100 ≠ 0) ∨ (k + 1) % 400 = 0 := by
    simp only [isLeap, Bool.or_eq_true, Bool.and_eq_true, beq_iff_eq, bne_iff_ne]
  unfold leapCount
  by_cases c4 : 4 ∣ (k + 1)
  · rw [if_pos c4] at h4
    by_cases c100 : 100 ∣ (k + 1)
    · rw [if_pos c100] at h100
      by_cases c400 : 400 ∣ (k + 1)
      · rw [if_pos c400] at h400
        rw [if_pos (hiff.mpr (Or.inr (by omega)))]
        omega
      · rw [if_neg c400] at h400
        rw [if_neg (fun hL => by rw [hiff] at hL; omega)]
        omega
    · rw [if_neg c100] at h100
      have c400 : ¬ 400 ∣ (k + 1) := fun h => c100 (dvd_trans (by norm_num) h)
      rw [if_neg c400] at h400
      rw [if_pos (hiff.mpr (Or.inl ⟨by omega, by omega⟩))]
      omega
  · rw [if_neg c4] at h4
    have c100 : ¬ 100 ∣ (k + 1) := fun h => c4 (dvd_trans (by norm_num) h)
    have c400 : ¬ 400 ∣ (k + 1) := fun h => c4 (dvd_trans (by norm_num) h)
    rw [if_neg c100] at h100
    rw [if_neg c400] at h400
    rw [if_neg (fun hL => by rw [hiff] at hL; omega)]
    omega

/-- Year-to-year step of the day count. -/
theorem daysBeforeYear_succ (y : ℕ) (hy : 1 ≤ y) :
    daysBeforeYear (y + 1) = daysBeforeYear y + 365 + (if isLeap y then 1 else 0) := by
  obtain ⟨k, rfl⟩ : ∃ k, y = k + 1 := ⟨y - 1, by omega⟩
  unfold daysBeforeYear
  simp only [Nat.add_sub_cancel]
  rw [leapCount_succ k]
  ring

theorem daysInMonth_pos (y m : ℕ) : 1 ≤ daysInMonth y m := by
  unfold daysInMonth
  split_ifs <;> omega

theorem daysInMonth_le (y m : ℕ) : daysInMonth y m ≤ 31 := by
  unfold daysInMonth
  split_ifs <;> omega

/-- Stepping one day forward advances the minute linearisation by one
day's worth of minutes. -/
theorem toMin_addOneDay (c : DateTime) (h : ValidDT c) :
    toMin (addOneDay c) = toMin c + 1440 := by
  obtain ⟨hy, hm1, hm2, hd1, hd2, hh, hmin⟩ := h
  unfold addOneDay
  by_cases hlt : c.day < daysInMonth c.year c.month
  · simp only [if_pos hlt, toMin, toDay]
    omega
  · have hd : c.day = daysInMonth c.year c.month := by omega
    by_cases hmon : c.month < 12
    · simp only [if_neg hlt, if_pos hmon, toMin, toDay]
      have := daysBeforeMonth_succ c.year c.month hm1 (by omega)
      omega
    · have hm12 : c.month = 12 := by omega
      simp only [if_neg hlt, if_neg hmon, toMin, toDay]
      have h1 := daysBeforeYear_succ c.year hy
      have h2 := daysInYear_eq c.year
      have hbm1 : daysBeforeMonth (c.year + 1) 1 = 0 := by
        simp [daysBeforeMonth, cumDays]
      rw [hm12] at hd ⊢
      omega

theorem valid_addOneDay (c : DateTime) (h : ValidDT c) : ValidDT (addOneDay c) := by
  obtain ⟨hy, hm1, hm2, hd1, hd2, hh, hmin⟩ := h
  unfold addOneDay ValidDT
  split_ifs with hlt hmon <;> dsimp only
  · exact ⟨hy, hm1, hm2, by omega, by omega, hh, hmin⟩
  · exact ⟨hy, by omega, by omega, le_refl 1, daysInMonth_pos _ _, hh, hmin⟩
  · exact ⟨by omega, by omega, by omega, le_refl 1, daysInMonth_pos _ _, hh, hmin⟩

theorem valid_nextMonthFirst (c : DateTime) (h : ValidDT c) :
    ValidDT (nextMonthFirst c) := by
  obtain ⟨hy, hm1, hm2, hd1, hd2, hh, hmin⟩ := h
  unfold nextMonthFirst ValidDT
  split_ifs with hm <;> dsimp only
  · exact ⟨by omega, by omega, by omega, le_refl 1, daysInMonth_pos _ _, by omega, by omega⟩
  · exact ⟨hy, by omega, by omega, le_refl 1, daysInMonth_pos _ _, by omega, by omega⟩

/-- Rolling to the first minute of the next month strictly advances the
linearisation, by at most 31 days. -/
theorem toMin_nextMonthFirst (c : DateTime) (h : ValidDT c) :
    toMin c < toMin (nextMonthFirst c) ∧
    toMin (nextMonthFirst c) ≤ toMin c + 31 * 1440 := by
  obtain ⟨hy, hm1, hm2, hd1, hd2, hh, hmin⟩ := h
  have hdim := daysInMonth_le c.year c.month
  unfold nextMonthFirst
  by_cases hm : c.month = 12
  · simp only [hm, if_true, if_pos rfl, toMin, toDay]
    have h1 := daysBeforeYear_succ c.year hy
    have h2 := daysInYear_eq c.year
    have hbm1 : daysBeforeMonth (c.year + 1) 1 = 0 := by
      simp [daysBeforeMonth, cumDays]
    rw [hm] at hd2 hdim
    have hdim12 : daysInMonth c.year 12 = 31 := by
      simp [daysInMonth]
    omega
  · simp only [if_neg hm, toMin, toDay]
    have := daysBeforeMonth_succ c.year c.month hm1 (by omega)
    omega

theorem valid_subOneMinute (c : DateTime) (h : ValidDT c) (hpos : 1 ≤ toMin c) :
    ValidDT (subOneMinute c) := by
  obtain ⟨hy, hm1, hm2, hd1, hd2, hh, hmin⟩ := h
  have hepoch : c.year = 1 ∧ c.month = 1 ∧ c.day = 1 ∧ c.hour = 0 ∧ c.minute = 0 →
      False := by
    rintro ⟨e1, e2, e3, e4, e5⟩
    have : toMin c = 0 := by
      simp [toMin, toDay, e1, e2, e3, e4, e5, daysBeforeYear, leapCount,
        daysBeforeMonth, cumDays]
    omega
  unfold subOneMinute ValidDT
  split_ifs with h1 h2 h3 h4 <;> dsimp only
  · exact ⟨hy, hm1, hm2, hd1, hd2, hh, by omega⟩
  · exact ⟨hy, hm1, hm2, hd1, hd2, by omega, by omega⟩
  · exact ⟨hy, hm1, hm2, by omega, by omega, by omega, by omega⟩
  · exact ⟨hy, by omega, by omega, daysInMonth_pos _ _, le_refl _, by omega, by omega⟩
  · refine ⟨?_, by omega, by omega, by omega, ?_, by omega, by omega⟩
    · by_contra hc
      exact hepoch ⟨by omega, by omega, by omega, by omega, by omega⟩
    · simp [daysInMonth]

/-- Stepping one minute back decrements the linearisation. -/
theorem toMin_subOneMinute (c : DateTime) (h : ValidDT c) (hpos : 1 ≤ toMin c) :
    toMin (subOneMinute c) = toMin c - 1 := by
  obtain ⟨hy, hm1, hm2, hd1, hd2, hh, hmin⟩ := h
  have hepoch : c.year = 1 ∧ c.month = 1 ∧ c.day = 1 ∧ c.hour = 0 ∧ c.minute = 0 →
      False := by
    rintro ⟨e1, e2, e3, e4, e5⟩
    have : toMin c = 0 := by
      simp [toMin, toDay, e1, e2, e3, e4, e5, daysBeforeYear, leapCount,
        daysBeforeMonth, cumDays]
    omega
  unfold subOneMinute
  split_ifs with h1 h2 h3 h4 <;> simp only [toMin, toDay]
  · omega
  · omega
  · omega
  · have hstep := daysBeforeMonth_succ c.year (c.month - 1) (by omega) (by omega)
    have heq : c.month - 1 + 1 = c.month := by omega
    rw [heq] at hstep
    have hpos' := daysInMonth_pos c.year (c.month - 1)
    omega
  · have hm : c.month = 1 := by omega
    have hd : c.day = 1 := by omega
    have hy2 : 2 ≤ c.year := by
      by_contra hc
      exact hepoch ⟨by omega, by omega, by omega, by omega, by omega⟩
    have h1' := daysBeforeYear_succ (c.year - 1) (by omega)
    have heq : c.year - 1 + 1 = c.year := by omega
    rw [heq] at h1'
    have h2' := daysInYear_eq (c.year - 1)
    have hbm1 : daysBeforeMonth c.year 1 = 0 := by
      simp [daysBeforeMonth, cumDays]
    have hbm12 : daysBeforeMonth (c.year - 1) 12 = 334 + (if isLeap (c.year - 1) then 1 else 0) := by
      simp [daysBeforeMonth, cumDays]
    have hdim12 : daysInMonth (c.year - 1) 12 = 31 := by
      simp [daysInMonth]
    rw [hm] at *
    omega

end CalendarLemmas

/-! ### Window planner (`iter_windows`) -/

inductive WindowMode
  | daily
  | monthly
deriving DecidableEq

/-- The cursor step of `iter_windows`: next day, or first instant of the
next month. -/
def windowNext (mode : WindowMode) (cursor : DateTime) : DateTime :=
  match mode with
  | .monthly => nextMonthFirst cursor
  | .daily => addOneDay cursor

/-- The while-loop of `iter_windows`, with explicit fuel (the loop
terminates because the cursor strictly advances; the wrapper supplies
enough fuel for the whole range). -/
def iterWindowsFuel : ℕ → DateTime → DateTime → WindowMode → List (DateTime × DateTime)
  | 0, _, _, _ => []
  | fuel + 1, cursor, endDt, mode =>
    if toMin cursor ≤ toMin endDt then
      (cursor, dtMin endDt (subOneMinute (windowNext mode cursor))) ::
        iterWindowsFuel fuel (windowNext mode cursor) endDt mode
    else []

/-- `iter_windows` from the source: split `[startDt, endDt]` into daily
or monthly sub-windows, each ending one minute before the next begins,
the last clipped to `endDt`. -/
def iter_windows (startDt endDt : DateTime) (mode : WindowMode) :
    List (DateTime × DateTime) :=
  iterWindowsFuel (toMin endDt + 1 - toMin startDt) startDt endDt mode

/-- The cursor step strictly advances and moves at most 31 days. -/
theorem toMin_windowNext (mode : WindowMode) (c : DateTime) (h : ValidDT c) :
    toMin c < toMin (windowNext mode c) ∧
    toMin (windowNext mode c) ≤ toMin c + 31 * 1440 := by
  cases mode
  · have := toMin_addOneDay c h
    simp only [windowNext]
    omega
  · exact toMin_nextMonthFirst c h

theorem valid_windowNext (mode : WindowMode) (c : DateTime) (h : ValidDT c) :
    ValidDT (windowNext mode c) := by
  cases mode
  · exact valid_addOneDay c h
  · exact valid_nextMonthFirst c h

/-! ### `parse_datetime_guess`

The four `strptime` formats are modelled at their fixed zero-padded
widths (the widths the upstream API emits); a candidate that parses but
is not a real calendar date is rejected, like `strptime`'s `ValueError`,
and the next format is tried. -/

def digitVal (c : Char) : ℕ := c.toNat - 48

def isDigitChar (c : Char) : Bool := 48 ≤ c.toNat && c.toNat ≤ 57

def digitsToNat (l : List Char) : ℕ := l.foldl (fun a c => a * 10 + digitVal c) 0

def allDigits (l : List Char) : Bool := l.all isDigitChar

/-- Reject the parse unless the fields form a valid calendar datetime
(`strptime` raises `ValueError` otherwise). -/
def mkValidDT (y mo d h mi : ℕ) : Option DateTime :=
  if ValidDT ⟨y, mo, d, h, mi⟩ then some ⟨y, mo, d, h, mi⟩ else none

/-- Format `%Y-%m-%d %H:%M`. -/
def parseYmdHm (l : List Char) : Option DateTime :=
  match l with
  | [y1, y2, y3, y4, '-', m1, m2, '-', d1, d2, ' ', h1, h2, ':', n1, n2] =>
    if allDigits [y1, y2, y3, y4, m1, m2, d1, d2, h1, h2, n1, n2] then
      mkValidDT (digitsToNat [y1, y2, y3, y4]) (digitsToNat [m1, m2])
        (digitsToNat [d1, d2]) (digitsToNat [h1, h2]) (digitsToNat [n1, n2])
    else none
  | _ => none

/-- Format `%Y%m%d%H%M`. -/
def parseYmdHmCompact (l : List Char) : Option DateTime :=
  match l with
  | [y1, y2, y3, y4, m1, m2, d1, d2, h1, h2, n1, n2] =>
    if allDigits l then
      mkValidDT (digitsToNat [y1, y2, y3, y4]) (digitsToNat [m1, m2])
        (digitsToNat [d1, d2]) (digitsToNat [h1, h2]) (digitsToNat [n1, n2])
    else none
  | _ => none

/-- Format `%Y-%m-%d`. -/
def parseYmd (l : List Char) : Option DateTime :=
  match l with
  | [y1, y2, y3, y4, '-', m1, m2, '-', d1, d2] =>
    if allDigits [y1, y2, y3, y4, m1, m2, d1, d2] then
      mkValidDT (digitsToNat [y1, y2, y3, y4]) (digitsToNat [m1, m2])
        (digitsToNat [d1, d2]) 0 0
    else none
  | _ => none

/-- Format `%Y%m%d`. -/
def parseYmdCompact (l : List Char) : Option DateTime :=
  match l with
  | [y1, y2, y3, y4, m1, m2, d1, d2] =>
    if allDigits l then
      mkValidDT (digitsToNat [y1, y2, y3, y4]) (digitsToNat [m1, m2])
        (digitsToNat [d1, d2]) 0 0
    else none
  | _ => none

/-- `parse_datetime_guess` from the source: empty input and unparseable
input give `none`; the four formats are tried in order. -/
def parse_datetime_guess (value : String) : Option DateTime :=
  if value = "" then none
  else
    match parseYmdHm value.data with
    | some d => some d
    | none =>
      match parseYmdHmCompact value.data with
      | some d => some d
      | none =>
        match parseYmd value.data with
        | some d => some d
        | none => parseYmdCompact value.data

/-! ### Urgency scorer

`urgency_score` is modelled over exact real arithmetic (`Real.logb 10`
for `math.log10`); Python's `round` on the clamped value is modelled by
Mathlib's `round` (the spec admits either tie-breaking convention, and
the score formula only produces ties at exact half-integers). -/

/-- `max((deadline_dt - datetime.now()).days, 0)`: whole days between
two datetimes, floored (Python `timedelta.days` floors), clamped at 0. -/
def daysLeft (now dl : DateTime) : ℕ :=
  (max (Int.fdiv ((toMin dl : ℤ) - (toMin now : ℤ)) 1440) 0).toNat

/-- The deadline component: neutral 0.5 without a deadline, otherwise
`1 / (1 + days_left / 7)`. -/
noncomputable def deadlineScore (now : DateTime) (deadline : Option DateTime) : ℝ :=
  match deadline with
  | none => 0.5
  | some dl => 1 / (1 + (daysLeft now dl : ℝ) / 7)

/-- The budget component: `min(1, log10(budget + 1) / 9)` for a present
positive budget, neutral 0.5 otherwise. -/
noncomputable def budgetScore (budget : Option ℚ) : ℝ :=
  match budget with
  | some b => if 0 < b then min 1 (Real.logb 10 ((b : ℝ) + 1) / 9) else 0.5
  | none => 0.5

/-- The weighted sum before clamping and rounding. -/
noncomputable def urgencyRaw (now : DateTime) (deadline : Option DateTime)
    (budget : Option ℚ) (rep : Bool) (agency_weight fit_weight : ℚ) : ℝ :=
  100 * (0.35 * deadlineScore now deadline + 0.25 * budgetScore budget +
    0.15 * (agency_weight : ℝ) + 0.15 * (if rep then (1 : ℝ) else 0) +
    0.10 * (fit_weight : ℝ))

/-- `urgency_score` from the source: clamp to `[0, 100]`, then round. -/
noncomputable def urgency_score (now : DateTime) (deadline : Option DateTime)
    (budget : Option ℚ) (rep : Bool) (agency_weight fit_weight : ℚ) : ℤ :=
  round (max 0 (min 100 (urgencyRaw now deadline budget rep agency_weight fit_weight)))

/-- `urgency_score` at its default weights (`agency_weight=0.6`,
`fit_weight=0.8`), as called by `build_leads`. -/
noncomputable def urgency_score_default (now : DateTime) (deadline : Option DateTime)
    (budget : Option ℚ) (rep : Bool) : ℤ :=
  urgency_score now deadline budget rep 0.6 0.8

/-! ### Title normalisation and recurrence detection -/

/-- `re.sub(r"20\d{2}", "", title)`: drop every 4-digit year starting
`20`, scanning left to right without overlap. -/
def removeYearsFuel : ℕ → List Char → List Char
  | 0, l => l
  | _ + 1, [] => []
  | fuel + 1, '2' :: rest@('0' :: a :: b :: rest2) =>
    if isDigitChar a && isDigitChar b then removeYearsFuel fuel rest2
    else '2' :: removeYearsFuel fuel rest
  | fuel + 1, c :: rest => c :: removeYearsFuel fuel rest

def removeYears (l : List Char) : List Char := removeYearsFuel l.length l

/-- Split a leading digit run from the rest. -/
def splitDigits : List Char → List Char × List Char
  | [] => ([], [])
  | c :: rest =>
    if isDigitChar c then
      ((splitDigits rest).1.cons c, (splitDigits rest).2)
    else ([], c :: rest)

/-- `re.sub(r"\d+차|\d+회", "", ...)`: drop a maximal digit run
immediately followed by an ordinal marker (the greedy `\d+` only matches
when the full run is followed by the marker).  The fuel argument bounds
the scan; one unit per consumed character, so the wrapper's
`l.length` is always enough. -/
def removeOrdFuel : ℕ → List Char → List Char
  | 0, l => l
  | _ + 1, [] => []
  | fuel + 1, c :: rest =>
    if isDigitChar c then
      match splitDigits (c :: rest) with
      | (ds, []) => ds
      | (ds, m :: rest3) =>
        if m == '차' || m == '회' then removeOrdFuel fuel rest3
        else ds ++ m :: removeOrdFuel fuel rest3
    else c :: removeOrdFuel fuel rest

def removeOrd (l : List Char) : List Char := removeOrdFuel l.length l

/-- `re.sub(r"\s+", " ", ...)`: collapse whitespace runs to one space. -/
def collapseWsFuel : ℕ → List Char → List Char
  | 0, l => l
  | _ + 1, [] => []
  | fuel + 1, c :: rest =>
    if wsChar c then ' ' :: collapseWsFuel fuel (rest.dropWhile wsChar)
    else c :: collapseWsFuel fuel rest

def collapseWs (l : List Char) : List Char := collapseWsFuel l.length l

/-- `_normalize_title` from the source: strip years and ordinal
markers, collapse whitespace, strip, lowercase. -/
def _normalize_title (title : String) : String :=
  String.mk (lowerStr (stripStr (collapseWs (removeOrd (removeYears title.data)))))

/-- The grouping key of the recurrence detector. -/
def repeatKey (n : RawNotice) : String × String :=
  (n.agency_name, _normalize_title n.notice_title)

/-- `counts[key] = counts.get(key, 0) + 1` on an insertion-ordered
association list. -/
def bumpCount (m : List ((String × String) × ℕ)) (k : String × String) :
    List ((String × String) × ℕ) :=
  match m with
  | [] => [(k, 1)]
  | e :: rest => if e.1 = k then (e.1, e.2 + 1) :: rest else e :: bumpCount rest k

/-- `_find_repeated_titles` from the source: keys whose group has at
least two notices. -/
def _find_repeated_titles (ns : List RawNotice) : List (String × String) :=
  ((ns.foldl (fun m n => bumpCount m (repeatKey n)) []).filter
    (fun e => 2 ≤ e.2)).map (fun e => e.1)

/-! ### Lead construction (`build_leads` and its helpers) -/

/-- `detect_region`: first region needle contained in the agency name
(dict iteration order is definition order). -/
def REGION_MAP : List (String × String) :=
  [("서울", "서울"), ("부산", "부산"), ("대구", "대구"), ("인천", "인천"),
   ("광주", "광주"), ("대전", "대전"), ("울산", "울산"), ("세종", "세종"),
   ("경기", "경기"), ("강원", "강원"), ("충북", "충북"), ("충남", "충남"),
   ("전북", "전북"), ("전남", "전남"), ("경북", "경북"), ("경남", "경남"),
   ("제주", "제주")]

def detect_region (agency_name : String) : String :=
  match REGION_MAP.find? (fun e => subSearch e.1.data agency_name.data) with
  | some e => e.2
  | none => "미지정"

def natDigits (n : ℕ) : List Char := (toString n).data

/-- `strftime`-style zero padding. -/
def pad2 (n : ℕ) : String :=
  if n < 10 then String.mk ('0' :: natDigits n) else String.mk (natDigits n)

def pad4 (n : ℕ) : String :=
  if n < 10 then String.mk ('0' :: '0' :: '0' :: natDigits n)
  else if n < 100 then String.mk ('0' :: '0' :: natDigits n)
  else if n < 1000 then String.mk ('0' :: natDigits n)
  else String.mk (natDigits n)

/-- `as_of_date.strftime("%Y-%m-%d")`. -/
def fmtDate (d : DateTime) : String :=
  pad4 d.year ++ ("-") ++ pad2 d.month ++ ("-") ++ pad2 d.day

/-- Python `int()` truncates a number toward zero. -/
def ratTrunc (q : ℚ) : ℤ := q.num / (q.den : ℤ)

/-- Insert thousands separators into a reversed digit list. -/
def commaRev : List Char → List Char
  | a :: b :: c :: rest@(_ :: _) => a :: b :: c :: ',' :: commaRev rest
  | l => l

/-- `f"{n:,}"` for an integer. -/
def commaFmt (n : ℤ) : String :=
  if n < 0 then String.mk ('-' :: (commaRev (natDigits n.natAbs).reverse).reverse)
  else String.mk ((commaRev (natDigits n.toNat).reverse).reverse)

/-- `f"{int(b):,}" if notice.budget_amt else "미지정"`. -/
def fmtBudget (b : Option ℚ) : String :=
  match b with
  | some q => if q ≠ 0 then commaFmt (ratTrunc q) else ("미지정")
  | none => ("미지정")

/-- `round(strength, 2)`. -/
def round2 (q : ℚ) : ℚ := (round (q * 100) : ℚ) / 100

structure LeadRecord where
  as_of_date : String
  bid_ntce_no : String
  bid_ntce_ord : String
  notice_title : String
  work_type : String
  agency_name : String
  region_guess : String
  deadline_dt : String
  budget_amt : String
  category : String
  match_strength : ℚ
  urgency_score : ℤ
  source_url : String
  contact_policy : String
  notes : String
deriving DecidableEq

structure SummaryStats where
  total_notices : ℕ
  matched_notices : ℕ
  by_category : List (String × ℕ)
  by_work_type : List (String × ℕ)
deriving DecidableEq

/-- The categories that do not become leads. -/
def isPositiveCategory (category : String) : Bool :=
  !(category == "비대상" || category == "보류(노이즈 가능)" || category == "미지정")

/-- `counts[key] = counts.get(key, 0) + 1` for the summary counters. -/
def bumpStr (m : List (String × ℕ)) (k : String) : List (String × ℕ) :=
  match m with
  | [] => [(k, 1)]
  | e :: rest => if e.1 = k then (e.1, e.2 + 1) :: rest else e :: bumpStr rest k

/-- One `LeadRecord` as constructed in the loop body of `build_leads`.
`now` is the wall clock consulted by `urgency_score`. -/
noncomputable def mkLead (as_of now : DateTime) (isRep : Bool) (n : RawNotice)
    (category : String) (strength : ℚ) : LeadRecord :=
  { as_of_date := fmtDate as_of
    bid_ntce_no := n.bid_ntce_no
    bid_ntce_ord := n.bid_ntce_ord
    notice_title := n.notice_title
    work_type := n.work_type
    agency_name := n.agency_name
    region_guess := detect_region n.agency_name
    deadline_dt := if n.deadline_dt = "" then ("미지정") else n.deadline_dt
    budget_amt := fmtBudget n.budget_amt
    category := category
    match_strength := round2 strength
    urgency_score := urgency_score_default now (parse_datetime_guess n.deadline_dt)
      n.budget_amt isRep
    source_url := n.source_url
    contact_policy := "개인정보 최소수집/수신거부 및 야간발송 제한 준수"
    notes := "자동 산출 리드. 원문 공고에서 세부 요구사항 재확인 필요" }

/-- The loop body of `build_leads` acting on
(leads, by_category, by_work_type). -/
noncomputable def build_step (as_of now : DateTime) (rkeys : List (String × String))
    (st : List LeadRecord × List (String × ℕ) × List (String × ℕ)) (n : RawNotice) :
    List LeadRecord × List (String × ℕ) × List (String × ℕ) :=
  let c := match_category n.notice_title
  let bw := bumpStr st.2.2 n.work_type
  if isPositiveCategory c.1 then
    (st.1 ++ [mkLead as_of now (decide (repeatKey n ∈ rkeys)) n c.1 c.2.1],
     bumpStr st.2.1 c.1, bw)
  else (st.1, st.2.1, bw)

/-- Stable insertion into a score-descending list: a new lead goes after
every lead whose score is at least as large.  Python `list.sort` is
stable, and a stable sort is determined extensionally by its key order,
so insertion sort is an exact model of
`leads.sort(key=..., reverse=True)`. -/
def insertLeadDesc (x : LeadRecord) : List LeadRecord → List LeadRecord
  | [] => [x]
  | y :: ys =>
    if x.urgency_score ≤ y.urgency_score then y :: insertLeadDesc x ys
    else x :: y :: ys

def sortLeadsDesc (l : List LeadRecord) : List LeadRecord :=
  l.foldl (fun acc x => insertLeadDesc x acc) []

/-- `build_leads` from the source. -/
noncomputable def build_leads (notices : List RawNotice) (as_of now : DateTime)
    (top_n : ℕ) : List LeadRecord × SummaryStats :=
  let st := notices.foldl (build_step as_of now (_find_repeated_titles notices))
    ([], [], [])
  ((sortLeadsDesc st.1).take top_n,
   { total_notices := notices.length
     matched_notices := st.1.length
     by_category := st.2.1
     by_work_type := st.2.2 })

/-- The full lead list of a run before sorting and truncation. -/
noncomputable def lead_list (notices : List RawNotice) (as_of now : DateTime) :
    List LeadRecord :=
  (notices.foldl (build_step as_of now (_find_repeated_titles notices))
    ([], [], [])).1

/-! ### Retrying fetcher (`request_json`)

The network is abstracted as a response sequence `responses : ℕ → _`
giving the outcome of each attempt; the function returns what the Python
control flow does with those outcomes, recording the sleeps performed. -/

inductive FetchOutcome (α : Type) where
  | ok (v : α)
  | http (code : ℕ)
  | failed
deriving DecidableEq

inductive ErrCause where
  | httpCode (code : ℕ)
  | generic
deriving DecidableEq

inductive ReqResult (α : Type) where
  | success (v : α) (attempt : ℕ) (sleeps : List ℕ)
  | authFatal (code : ℕ) (sleeps : List ℕ)
  | reraise (code : ℕ) (sleeps : List ℕ)
  | apiFail (lastError : Option ErrCause) (sleeps : List ℕ)
deriving DecidableEq

def MAX_RETRIES : ℕ := 4

def request_json_go {α : Type} (responses : ℕ → FetchOutcome α) :
    ℕ → ℕ → Option ErrCause → List ℕ → ReqResult α
  | 0, _, lastError, sleeps => .apiFail lastError sleeps
  | fuel + 1, attempt, lastError, sleeps =>
    match responses attempt with
    | .ok v => .success v attempt sleeps
    | .http c =>
      if c = 401 ∨ c = 403 then .authFatal c sleeps
      else if c = 429 ∨ 500 ≤ c then
        if attempt = MAX_RETRIES then .apiFail (some (.httpCode c)) sleeps
        else request_json_go responses fuel (attempt + 1) (some (.httpCode c))
          (sleeps ++ [min (2 ^ attempt) 8])
      else .reraise c sleeps
    | .failed =>
      if attempt = MAX_RETRIES then .apiFail (some .generic) sleeps
      else request_json_go responses fuel (attempt + 1) (some .generic)
        (sleeps ++ [min (2 ^ attempt) 8])

/-- `request_json` from the source, as a function of the outcome of each
attempt. -/
def request_json {α : Type} (responses : ℕ → FetchOutcome α) : ReqResult α :=
  request_json_go responses MAX_RETRIES 1 none []

/-! ## Claim theorems -/

/-- C2: `match_category` is a deterministic total function of the title
(it is a Lean function) with strength in `[0, 1]`; an empty or blank
title yields `미지정`/0 with no hits, zero include hits yield
`비대상`/0, an exclude hit with include-hit count at most the
exclude-hit count yields `보류(노이즈 가능)`/0.45, and otherwise the
OD-refinement terms yield `OD/조직`/0.84, the evaluation-refinement
terms `평가/제도`/0.78, and every remaining title `HRD/교육`/0.72. -/
theorem match_category_spec (title : String) :
    (0 ≤ (match_category title).2.1 ∧ (match_category title).2.1 ≤ 1) ∧
    (stripStr title.data = [] → match_category title = ("미지정", 0, [])) ∧
    (stripStr title.data ≠ [] →
      (INCLUDE_PATTERNS.filter (fun p => patSearch p (stripStr title.data)) = [] →
        match_category title = ("비대상", 0, [])) ∧
      (INCLUDE_PATTERNS.filter (fun p => patSearch p (stripStr title.data)) ≠ [] →
        EXCLUDE_PATTERNS.filter (fun p => patSearch p (stripStr title.data)) ≠ [] →
        (INCLUDE_PATTERNS.filter (fun p => patSearch p (stripStr title.data))).length ≤
          (EXCLUDE_PATTERNS.filter (fun p => patSearch p (stripStr title.data))).length →
        match_category title = ("보류(노이즈 가능)", 0.45,
          INCLUDE_PATTERNS.filter (fun p => patSearch p (stripStr title.data)))) ∧
      (INCLUDE_PATTERNS.filter (fun p => patSearch p (stripStr title.data)) ≠ [] →
        ¬ (EXCLUDE_PATTERNS.filter (fun p => patSearch p (stripStr title.data)) ≠ [] ∧
           (INCLUDE_PATTERNS.filter (fun p => patSearch p (stripStr title.data))).length ≤
             (EXCLUDE_PATTERNS.filter (fun p => patSearch p (stripStr title.data))).length) →
        (odRefineSearch (stripStr title.data) = true →
          match_category title = ("OD/조직", 0.84,
            INCLUDE_PATTERNS.filter (fun p => patSearch p (stripStr title.data)))) ∧
        (odRefineSearch (stripStr title.data) = false →
          evalRefineSearch (stripStr title.data) = true →
          match_category title = ("평가/제도", 0.78,
            INCLUDE_PATTERNS.filter (fun p => patSearch p (stripStr title.data)))) ∧
        (odRefineSearch (stripStr title.data) = false →
          evalRefineSearch (stripStr title.data) = false →
          match_category title = ("HRD/교육", 0.72,
            INCLUDE_PATTERNS.filter (fun p => patSearch p (stripStr title.data)))))) := by
  refine ⟨?_, ?_, ?_⟩
  · simp only [match_category]
    split_ifs <;> norm_num
  · intro h
    simp only [match_category]
    rw [if_pos h]
  · intro h
    refine ⟨?_, ?_, ?_⟩
    · intro hinc
      simp only [match_category]
      rw [if_neg h, if_pos hinc]
    · intro hinc hexc hle
      simp only [match_category]
      rw [if_neg h, if_neg hinc, if_pos ⟨hexc, hle⟩]
    · intro hinc hmix
      refine ⟨?_, ?_, ?_⟩
      · intro hod
        simp only [match_category]
        rw [if_neg h, if_neg hinc, if_neg hmix, if_pos hod]
      · intro hod hev
        simp only [match_category]
        rw [if_neg h, if_neg hinc, if_neg hmix, if_neg (by simp [hod]), if_pos hev]
      · intro hod hev
        simp only [match_category]
        rw [if_neg h, if_neg hinc, if_neg hmix, if_neg (by simp [hod]),
          if_neg (by simp [hev])]

/-- Witness for C2 at the concrete mixed-signal title `시설 교육`:
one include hit and one exclude hit, so the conservative hold branch
fires. -/
theorem match_category_spec_witness :
    stripStr ("시설 교육").data ≠ [] ∧
    INCLUDE_PATTERNS.filter (fun p => patSearch p (stripStr ("시설 교육").data)) ≠ [] ∧
    EXCLUDE_PATTERNS.filter (fun p => patSearch p (stripStr ("시설 교육").data)) ≠ [] ∧
    (INCLUDE_PATTERNS.filter (fun p => patSearch p (stripStr ("시설 교육").data))).length ≤
      (EXCLUDE_PATTERNS.filter (fun p => patSearch p (stripStr ("시설 교육").data))).length ∧
    match_category ("시설 교육") = ("보류(노이즈 가능)", 0.45,
      INCLUDE_PATTERNS.filter (fun p => patSearch p (stripStr ("시설 교육").data))) :=
  ⟨by decide, by decide, by decide, by decide,
   (((match_category_spec ("시설 교육")).2.2 (by decide)).2.1 (by decide) (by decide)
     (by decide))⟩

section DedupeLemmas

theorem dictInsert_keys (m : List ((String × String) × RawNotice)) (k : String × String)
    (v : RawNotice) :
    (dictInsert m k v).map (fun e => e.1) =
      if k ∈ m.map (fun e => e.1) then m.map (fun e => e.1)
      else m.map (fun e => e.1) ++ [k] := by
  induction m with
  | nil => simp [dictInsert]
  | cons e rest ih =>
    simp only [dictInsert]
    by_cases he : e.1 = k
    · rw [if_pos he]
      simp [he]
    · have he' : ¬ (k = e.1) := fun hh => he hh.symm
      rw [if_neg he]
      simp only [List.map_cons, ih]
      by_cases hk : k ∈ rest.map (fun e => e.1)
      · simp [hk, he', List.mem_cons]
      · simp [hk, he', List.mem_cons]

theorem mem_dictInsert (m : List ((String × String) × RawNotice)) (k : String × String)
    (v : RawNotice) (hnd : (m.map (fun e => e.1)).Nodup)
    (x : (String × String) × RawNotice) :
    x ∈ dictInsert m k v → x = (k, v) ∨ (x ∈ m ∧ x.1 ≠ k) := by
  induction m with
  | nil =>
    intro hx
    simp only [dictInsert, List.mem_singleton] at hx
    exact Or.inl hx
  | cons e rest ih =>
    simp only [List.map_cons, List.nodup_cons] at hnd
    intro hx
    simp only [dictInsert] at hx
    by_cases he : e.1 = k
    · rw [if_pos he] at hx
      rcases List.mem_cons.mp hx with h1 | h2
      · exact Or.inl h1
      · refine Or.inr ⟨List.mem_cons_of_mem _ h2, fun hk => ?_⟩
        have : x.1 ∈ rest.map (fun e => e.1) := List.mem_map_of_mem _ h2
        rw [hk, ← he] at this
        exact hnd.1 this
    · rw [if_neg he] at hx
      rcases List.mem_cons.mp hx with h1 | h2
      · exact Or.inr ⟨List.mem_cons.mpr (Or.inl h1), by rw [h1]; exact he⟩
      · rcases ih hnd.2 h2 with h3 | h3
        · exact Or.inl h3
        · exact Or.inr ⟨List.mem_cons_of_mem _ h3.1, h3.2⟩

theorem dictInsert_keys_nodup (m : List ((String × String) × RawNotice))
    (k : String × String) (v : RawNotice) (hnd : (m.map (fun e => e.1)).Nodup) :
    ((dictInsert m k v).map (fun e => e.1)).Nodup := by
  rw [dictInsert_keys]
  split_ifs with hk
  · exact hnd
  · refine List.nodup_append.mpr ⟨hnd, List.nodup_singleton k, ?_⟩
    intro a ha hb
    rw [List.mem_singleton] at hb
    subst hb
    exact hk ha

theorem lastWithKey_append (ns : List RawNotice) (n : RawNotice) (k : String × String) :
    lastWithKey (ns ++ [n]) k = if noticeKey n = k then some n else lastWithKey ns k := by
  unfold lastWithKey
  rw [List.filter_append]
  by_cases h : noticeKey n = k
  · rw [if_pos h]
    have : List.filter (fun m => decide (noticeKey m = k)) [n] = [n] := by
      simp [h]
    rw [this, List.getLast?_concat]
  · rw [if_neg h]
    have : List.filter (fun m => decide (noticeKey m = k)) [n] = [] := by
      simp [h]
    rw [this, List.append_nil]

theorem mem_keepFirst (l : List (String × String)) (x : String × String) :
    x ∈ keepFirst l ↔ x ∈ l := by
  induction l using keepFirst.induct with
  | case1 => simp [keepFirst]
  | case2 k ks ih =>
    simp only [keepFirst, List.mem_cons, ih, List.mem_filter, decide_eq_true_eq]
    constructor
    · rintro (h | ⟨h1, _⟩)
      · exact Or.inl h
      · exact Or.inr h1
    · rintro (h | h)
      · exact Or.inl h
      · by_cases hx : x = k
        · exact Or.inl hx
        · exact Or.inr ⟨h, hx⟩

theorem nodup_keepFirst (l : List (String × String)) : (keepFirst l).Nodup := by
  induction l using keepFirst.induct with
  | case1 => simp [keepFirst]
  | case2 k ks ih =>
    simp only [keepFirst, List.nodup_cons]
    refine ⟨fun hk => ?_, ih⟩
    have := (mem_keepFirst _ _).mp hk
    rw [List.mem_filter] at this
    simp at this

theorem length_keepFirst_le (l : List (String × String)) :
    (keepFirst l).length ≤ l.length := by
  induction l using keepFirst.induct with
  | case1 => simp [keepFirst]
  | case2 k ks ih =>
    simp only [keepFirst, List.length_cons]
    have := List.length_filter_le (fun j => decide (j ≠ k)) ks
    omega

theorem keepFirst_append_singleton (a : String × String) (l : List (String × String)) :
    keepFirst (l ++ [a]) = if a ∈ l then keepFirst l else keepFirst l ++ [a] := by
  induction l using keepFirst.induct with
  | case1 => simp [keepFirst]
  | case2 k ks ih =>
    by_cases hak : a = k
    · subst hak
      have hfil : (ks ++ [a]).filter (fun j => decide (j ≠ a)) =
          ks.filter (fun j => decide (j ≠ a)) := by
        rw [List.filter_append]
        simp
      simp only [List.cons_append, keepFirst, hfil]
      rw [if_pos (List.mem_cons_self a ks)]
    · have hfil : (ks ++ [a]).filter (fun j => decide (j ≠ k)) =
          ks.filter (fun j => decide (j ≠ k)) ++ [a] := by
        rw [List.filter_append]
        simp [hak]
      simp only [List.cons_append, keepFirst, hfil, ih]
      by_cases hks : a ∈ ks.filter (fun j => decide (j ≠ k))
      · rw [if_pos hks]
        rw [List.mem_filter] at hks
        rw [if_pos (List.mem_cons_of_mem _ hks.1)]
      · rw [if_neg hks]
        have : a ∉ (k :: ks) := by
          rw [List.mem_cons]
          rintro (h | h)
          · exact hak h
          · exact hks (List.mem_filter.mpr ⟨h, by simp [hak]⟩)
        rw [if_neg this]

theorem dedupe_foldl_invariant (ns : List RawNotice) :
    ((ns.foldl (fun m n => dictInsert m (noticeKey n) n) []).map
        (fun e => e.1)).Nodup ∧
    (∀ e ∈ ns.foldl (fun m n => dictInsert m (noticeKey n) n) [],
      e.1 = noticeKey e.2 ∧ lastWithKey ns e.1 = some e.2) ∧
    (ns.foldl (fun m n => dictInsert m (noticeKey n) n) []).map (fun e => e.1) =
      keepFirst (ns.map noticeKey) := by
  induction ns using List.reverseRecOn with
  | nil => simp [keepFirst]
  | append_singleton l a ih =>
    obtain ⟨ihnd, ihmem, ihkeys⟩ := ih
    rw [List.foldl_append]
    simp only [List.foldl_cons, List.foldl_nil]
    refine ⟨dictInsert_keys_nodup _ _ _ ihnd, ?_, ?_⟩
    · intro e he
      rcases mem_dictInsert _ _ _ ihnd e he with h1 | ⟨h2, h3⟩
      · subst h1
        refine ⟨rfl, ?_⟩
        rw [lastWithKey_append, if_pos rfl]
      · obtain ⟨hk, hlast⟩ := ihmem e h2
        refine ⟨hk, ?_⟩
        rw [lastWithKey_append, if_neg (fun hh => h3 hh.symm)]
        exact hlast
    · rw [dictInsert_keys, List.map_append, List.map_singleton,
        keepFirst_append_singleton, ihkeys]
      by_cases hk : noticeKey a ∈ l.map noticeKey
      · have h1 : noticeKey a ∈ keepFirst (l.map noticeKey) := (mem_keepFirst _ _).mpr hk
        rw [if_pos h1, if_pos hk]
      · have h1 : noticeKey a ∉ keepFirst (l.map noticeKey) :=
          fun hh => hk ((mem_keepFirst _ _).mp hh)
        rw [if_neg h1, if_neg hk]

theorem countP_key_eq_one (l : List (String × String)) (k : String × String)
    (hnd : l.Nodup) (hk : k ∈ l) : l.countP (fun j => decide (j = k)) = 1 := by
  induction l with
  | nil => cases hk
  | cons x xs ih =>
    rw [List.nodup_cons] at hnd
    rw [List.countP_cons]
    by_cases hx : x = k
    · subst hx
      have h0 : xs.countP (fun j => decide (j = x)) = 0 :=
        List.countP_eq_zero.mpr (fun a ha => by
          simp only [decide_eq_true_eq]
          rintro rfl
          exact hnd.1 ha)
      simp [h0]
    · have hk' : k ∈ xs := by
        rcases List.mem_cons.mp hk with h | h
        · exact absurd h.symm hx
        · exact h
      rw [ih hnd.2 hk']
      simp [hx]

end DedupeLemmas

/-- C3: `dedupe_notices` never lengthens its input; its keys are the
distinct input keys in first-insertion order, each appearing exactly
once; and each key is mapped to the last notice carrying it in
traversal order. -/
theorem dedupe_notices_spec (ns : List RawNotice) :
    (dedupe_notices ns).length ≤ ns.length ∧
    (dedupe_notices ns).map noticeKey = keepFirst (ns.map noticeKey) ∧
    (∀ k, k ∈ ns.map noticeKey →
      ((dedupe_notices ns).map noticeKey).countP (fun j => decide (j = k)) = 1) ∧
    (∀ n, n ∈ dedupe_notices ns → lastWithKey ns (noticeKey n) = some n) := by
  obtain ⟨hnd, hmem, hkeys⟩ := dedupe_foldl_invariant ns
  have hmapkeys : (dedupe_notices ns).map noticeKey =
      (ns.foldl (fun m n => dictInsert m (noticeKey n) n) []).map (fun e => e.1) := by
    unfold dedupe_notices
    rw [List.map_map]
    exact List.map_congr_left (fun e he => ((hmem e he).1).symm)
  refine ⟨?_, ?_, ?_, ?_⟩
  · have h1 : (dedupe_notices ns).length = ((dedupe_notices ns).map noticeKey).length :=
      (List.length_map _ _).symm
    rw [h1, hmapkeys, hkeys]
    calc (keepFirst (ns.map noticeKey)).length ≤ (ns.map noticeKey).length :=
          length_keepFirst_le _
      _ = ns.length := List.length_map _ _
  · rw [hmapkeys, hkeys]
  · intro k hk
    have hmem' : k ∈ (dedupe_notices ns).map noticeKey := by
      rw [hmapkeys, hkeys]
      exact (mem_keepFirst _ _).mpr hk
    have hnd' : ((dedupe_notices ns).map noticeKey).Nodup := by
      rw [hmapkeys]
      exact hnd
    exact countP_key_eq_one _ _ hnd' hmem'
  · intro n hn
    unfold dedupe_notices at hn
    rw [List.mem_map] at hn
    obtain ⟨e, he, rfl⟩ := hn
    obtain ⟨hk, hlast⟩ := hmem e he
    rw [← hk]
    exact hlast

/-- Witness for C3: a batch with a duplicated key keeps the later
version and the other key, in first-insertion order. -/
theorem dedupe_notices_spec_witness :
    (("1", "1") ∈ (([⟨"1", "1", "A", "w", "ag", "", "", none, "u"⟩,
        ⟨"2", "1", "B", "w", "ag", "", "", none, "u"⟩,
        ⟨"1", "1", "C", "w", "ag", "", "", none, "u"⟩] : List RawNotice)).map noticeKey) ∧
    ((dedupe_notices [⟨"1", "1", "A", "w", "ag", "", "", none, "u"⟩,
        ⟨"2", "1", "B", "w", "ag", "", "", none, "u"⟩,
        ⟨"1", "1", "C", "w", "ag", "", "", none, "u"⟩]).map noticeKey).countP
      (fun j => decide (j = ("1", "1"))) = 1 ∧
    (⟨"1", "1", "C", "w", "ag", "", "", none, "u"⟩ ∈
      dedupe_notices [⟨"1", "1", "A", "w", "ag", "", "", none, "u"⟩,
        ⟨"2", "1", "B", "w", "ag", "", "", none, "u"⟩,
        ⟨"1", "1", "C", "w", "ag", "", "", none, "u"⟩]) ∧
    lastWithKey [⟨"1", "1", "A", "w", "ag", "", "", none, "u"⟩,
        ⟨"2", "1", "B", "w", "ag", "", "", none, "u"⟩,
        ⟨"1", "1", "C", "w", "ag", "", "", none, "u"⟩]
      (noticeKey ⟨"1", "1", "C", "w", "ag", "", "", none, "u"⟩) =
      some ⟨"1", "1", "C", "w", "ag", "", "", none, "u"⟩ :=
  ⟨by decide,
   (dedupe_notices_spec _).2.2.1 _ (by decide),
   by decide,
   (dedupe_notices_spec _).2.2.2 _ (by decide)⟩

section ScoreLemmas

theorem round_mono_real {x y : ℝ} (h : x ≤ y) : round x ≤ round y := by
  rw [round_eq, round_eq]
  exact Int.floor_le_floor (by linarith)

/-- Clamping before rounding (the code) agrees with rounding before
clamping (the claim wording): the clamp bounds are integers. -/
theorem round_clamp (x : ℝ) :
    round (max 0 (min 100 x)) = max 0 (min 100 (round x)) := by
  have h0 : round (0 : ℝ) = 0 := round_zero
  have h100 : round (100 : ℝ) = 100 := by norm_num
  rcases le_total x 0 with h | h
  · rw [min_eq_right (h.trans (by norm_num)), max_eq_left h, h0]
    have hr : round x ≤ 0 := h0 ▸ round_mono_real h
    rw [min_eq_right (hr.trans (by norm_num)), max_eq_left hr]
  · rcases le_total x 100 with h2 | h2
    · rw [min_eq_right h2, max_eq_right h]
      have hr0 : 0 ≤ round x := h0 ▸ round_mono_real h
      have hr100 : round x ≤ 100 := h100 ▸ round_mono_real h2
      rw [min_eq_right hr100, max_eq_right hr0]
    · rw [min_eq_left h2, max_eq_right (by norm_num : (0 : ℝ) ≤ 100), h100]
      have hr : 100 ≤ round x := h100 ▸ round_mono_real h2
      rw [min_eq_left hr, max_eq_right (by norm_num : (0 : ℤ) ≤ 100)]

theorem deadlineScore_bounds (now : DateTime) (dl : Option DateTime) :
    0 < deadlineScore now dl ∧ deadlineScore now dl ≤ 1 := by
  cases dl with
  | none => norm_num [deadlineScore]
  | some d =>
    have hx : (0 : ℝ) ≤ (daysLeft now d : ℝ) := Nat.cast_nonneg _
    have hden : (0 : ℝ) < 1 + (daysLeft now d : ℝ) / 7 := by linarith
    constructor
    · exact one_div_pos.mpr hden
    · rw [deadlineScore, div_le_one hden]
      linarith

theorem budgetScore_bounds (budget : Option ℚ) :
    0 < budgetScore budget ∧ budgetScore budget ≤ 1 := by
  cases budget with
  | none => norm_num [budgetScore]
  | some b =>
    unfold budgetScore
    dsimp only
    split_ifs with hb
    · have hb' : (1 : ℝ) < (b : ℝ) + 1 := by
        have : (0 : ℝ) < (b : ℝ) := by exact_mod_cast hb
        linarith
      have hlog : 0 < Real.logb 10 ((b : ℝ) + 1) :=
        Real.logb_pos (by norm_num) hb'
      exact ⟨lt_min (by norm_num) (by positivity), min_le_left _ _⟩
    · norm_num

/-- At the default weights the raw score always lies in `(17, 92]`. -/
theorem urgencyRaw_default_bounds (now : DateTime) (dl : Option DateTime)
    (budget : Option ℚ) (rep : Bool) :
    17 < urgencyRaw now dl budget rep 0.6 0.8 ∧
    urgencyRaw now dl budget rep 0.6 0.8 ≤ 92 := by
  obtain ⟨hd1, hd2⟩ := deadlineScore_bounds now dl
  obtain ⟨hb1, hb2⟩ := budgetScore_bounds budget
  have hw1 : ((0.6 : ℚ) : ℝ) = 0.6 := by norm_num
  have hw2 : ((0.8 : ℚ) : ℝ) = 0.8 := by norm_num
  unfold urgencyRaw
  rw [hw1, hw2]
  split_ifs with hr <;> constructor <;> nlinarith

end ScoreLemmas

/-- C10: with the default weights the score is always between 17 and 92,
the clamp never changes the raw value, and 100 is unattainable. -/
theorem urgency_score_default_range (now : DateTime) (dl : Option DateTime)
    (budget : Option ℚ) (rep : Bool) :
    17 ≤ urgency_score_default now dl budget rep ∧
    urgency_score_default now dl budget rep ≤ 92 ∧
    max 0 (min 100 (urgencyRaw now dl budget rep 0.6 0.8)) =
      urgencyRaw now dl budget rep 0.6 0.8 ∧
    urgency_score_default now dl budget rep ≠ 100 := by
  obtain ⟨h17, h92⟩ := urgencyRaw_default_bounds now dl budget rep
  have hclamp : max 0 (min 100 (urgencyRaw now dl budget rep 0.6 0.8)) =
      urgencyRaw now dl budget rep 0.6 0.8 := by
    rw [min_eq_right (h92.trans (by norm_num)), max_eq_right (by linarith)]
  have hs : urgency_score_default now dl budget rep =
      round (urgencyRaw now dl budget rep 0.6 0.8) := by
    unfold urgency_score_default urgency_score
    rw [hclamp]
  have hge : 17 ≤ urgency_score_default now dl budget rep := by
    rw [hs, round_eq]
    rw [Int.le_floor]
    push_cast
    linarith
  have hle : urgency_score_default now dl budget rep ≤ 92 := by
    rw [hs, round_eq]
    have : (⌊urgencyRaw now dl budget rep 0.6 0.8 + 1 / 2⌋ : ℤ) < 93 := by
      rw [Int.floor_lt]
      push_cast
      linarith
    omega
  exact ⟨hge, hle, hclamp, by omega⟩

/-- Modelled from the claim wording of C1: `round` the weighted sum,
then clamp the integer to `[0, 100]`; `D`, `B`, `R` as described. -/
noncomputable def urgencyScoreClaim (now : DateTime) (deadline : Option DateTime)
    (budget : Option ℚ) (rep : Bool) : ℤ :=
  max 0 (min 100 (round (100 * (0.35 * deadlineScore now deadline +
    0.25 * budgetScore budget + 0.15 * (0.6 : ℝ) +
    0.15 * (if rep then (1 : ℝ) else 0) + 0.10 * (0.8 : ℝ)))))

/-- C1: the code's score (clamp, then round) equals the claimed formula
(round, then clamp) for every deadline, budget and repeat flag. -/
theorem urgency_score_eq_claim (now : DateTime) (dl : Option DateTime)
    (budget : Option ℚ) (rep : Bool) :
    urgency_score_default now dl budget rep = urgencyScoreClaim now dl budget rep := by
  have hw1 : ((0.6 : ℚ) : ℝ) = 0.6 := by norm_num
  have hw2 : ((0.8 : ℚ) : ℝ) = 0.8 := by norm_num
  unfold urgency_score_default urgency_score urgencyScoreClaim urgencyRaw
  rw [hw1, hw2, round_clamp]

/-- C4: every score, at any weights, lands in `[0, 100]`; and an
otherwise-identical notice with a strictly nearer deadline, strictly
larger budget and the repeat flag set scores strictly higher than one
with a farther deadline, smaller budget and no repeat flag. -/
theorem urgency_score_range_and_mono :
    (∀ (now : DateTime) (dl : Option DateTime) (budget : Option ℚ) (rep : Bool)
      (aw fw : ℚ), 0 ≤ urgency_score now dl budget rep aw fw ∧
        urgency_score now dl budget rep aw fw ≤ 100) ∧
    (∀ (now dl1 dl2 : DateTime) (b1 b2 : ℚ), toMin dl1 < toMin dl2 → b2 < b1 →
      urgency_score_default now (some dl2) (some b2) false <
        urgency_score_default now (some dl1) (some b1) true) := by
  constructor
  · intro now dl budget rep aw fw
    unfold urgency_score
    have h1 : (0 : ℝ) ≤ max 0 (min 100 (urgencyRaw now dl budget rep aw fw)) :=
      le_max_left _ _
    have h2 : max 0 (min 100 (urgencyRaw now dl budget rep aw fw)) ≤ 100 :=
      max_le (by norm_num) (min_le_left _ _)
    constructor
    · have := round_mono_real h1
      rwa [round_zero] at this
    · have := round_mono_real h2
      rwa [show round (100 : ℝ) = 100 by norm_num] at this
  · intro now dl1 dl2 b1 b2 hdl hb12
    have hdays : daysLeft now dl1 ≤ daysLeft now dl2 := by
      unfold daysLeft
      have h1 : Int.fdiv ((toMin dl1 : ℤ) - (toMin now : ℤ)) 1440 ≤
          Int.fdiv ((toMin dl2 : ℤ) - (toMin now : ℤ)) 1440 := by
        rw [Int.fdiv_eq_ediv _ (by norm_num), Int.fdiv_eq_ediv _ (by norm_num)]
        exact Int.ediv_le_ediv (by norm_num) (by omega)
      exact Int.toNat_le_toNat (max_le_max h1 (le_refl 0))
    have hds : deadlineScore now (some dl2) ≤ deadlineScore now (some dl1) := by
      unfold deadlineScore
      dsimp only
      have hc : ((daysLeft now dl1 : ℕ) : ℝ) ≤ ((daysLeft now dl2 : ℕ) : ℝ) :=
        Nat.cast_le.mpr hdays
      have hx0 : (0 : ℝ) ≤ (daysLeft now dl1 : ℝ) := Nat.cast_nonneg _
      have hpos : (0 : ℝ) < 1 + (daysLeft now dl1 : ℝ) / 7 := by linarith
      exact one_div_le_one_div_of_le hpos (by linarith)
    have hbs : budgetScore (some b2) - 1 / 2 < budgetScore (some b1) := by
      unfold budgetScore
      dsimp only
      by_cases hb1 : 0 < b1
      · by_cases hb2 : 0 < b2
        · rw [if_pos hb2, if_pos hb1]
          have hcast : ((b2 : ℚ) : ℝ) ≤ ((b1 : ℚ) : ℝ) := by
            exact_mod_cast hb12.le
          have hpos2 : (0 : ℝ) < (b2 : ℝ) + 1 := by
            have : (0 : ℝ) < (b2 : ℝ) := by exact_mod_cast hb2
            linarith
          have hlog : Real.logb 10 ((b2 : ℝ) + 1) ≤ Real.logb 10 ((b1 : ℝ) + 1) :=
            Real.logb_le_logb_of_le (by norm_num) hpos2 (by linarith)
          have := min_le_min (le_refl (1 : ℝ)) (by linarith :
            Real.logb 10 ((b2 : ℝ) + 1) / 9 ≤ Real.logb 10 ((b1 : ℝ) + 1) / 9)
          linarith
        · rw [if_neg hb2, if_pos hb1]
          have hb1' : (1 : ℝ) < (b1 : ℝ) + 1 := by
            have : (0 : ℝ) < (b1 : ℝ) := by exact_mod_cast hb1
            linarith
          have hlog : 0 < Real.logb 10 ((b1 : ℝ) + 1) :=
            Real.logb_pos (by norm_num) hb1'
          have : (0 : ℝ) < min 1 (Real.logb 10 ((b1 : ℝ) + 1) / 9) :=
            lt_min (by norm_num) (by linarith)
          norm_num
          linarith
      · have hb2 : ¬ 0 < b2 := fun h => hb1 (h.trans hb12)
        rw [if_neg hb2, if_neg hb1]
        norm_num
    have hraw : urgencyRaw now (some dl2) (some b2) false 0.6 0.8 + 5 / 2 <
        urgencyRaw now (some dl1) (some b1) true 0.6 0.8 := by
      unfold urgencyRaw
      simp only [if_true, if_false, Bool.false_eq_true]
      nlinarith
    obtain ⟨hA17, hA92⟩ := urgencyRaw_default_bounds now (some dl2) (some b2) false
    obtain ⟨hB17, hB92⟩ := urgencyRaw_default_bounds now (some dl1) (some b1) true
    have hsA : urgency_score_default now (some dl2) (some b2) false =
        round (urgencyRaw now (some dl2) (some b2) false 0.6 0.8) := by
      unfold urgency_score_default urgency_score
      rw [min_eq_right (hA92.trans (by norm_num)), max_eq_right (by linarith)]
    have hsB : urgency_score_default now (some dl1) (some b1) true =
        round (urgencyRaw now (some dl1) (some b1) true 0.6 0.8) := by
      unfold urgency_score_default urgency_score
      rw [min_eq_right (hB92.trans (by norm_num)), max_eq_right (by linarith)]
    rw [hsA, hsB]
    rw [round_eq, round_eq]
    have hfA : ⌊urgencyRaw now (some dl2) (some b2) false 0.6 0.8 + 1 / 2⌋ ≤
        ⌊urgencyRaw now (some dl2) (some b2) false 0.6 0.8⌋ + 1 := by
      have := Int.floor_add_int (urgencyRaw now (some dl2) (some b2) false 0.6 0.8) 1
      have hmono := Int.floor_le_floor
        (show urgencyRaw now (some dl2) (some b2) false 0.6 0.8 + 1 / 2 ≤
          urgencyRaw now (some dl2) (some b2) false 0.6 0.8 + (1 : ℤ) by push_cast; linarith)
      omega
    have hfB : ⌊urgencyRaw now (some dl2) (some b2) false 0.6 0.8⌋ + 3 ≤
        ⌊urgencyRaw now (some dl1) (some b1) true 0.6 0.8 + 1 / 2⌋ := by
      have := Int.floor_add_int (urgencyRaw now (some dl2) (some b2) false 0.6 0.8) 3
      have hmono := Int.floor_le_floor
        (show urgencyRaw now (some dl2) (some b2) false 0.6 0.8 + (3 : ℤ) ≤
          urgencyRaw now (some dl1) (some b1) true 0.6 0.8 + 1 / 2 by push_cast; linarith)
      omega
    omega

/-- Witness for the monotonicity half of C4 at concrete inputs. -/
theorem urgency_score_range_and_mono_witness :
    toMin (⟨2026, 1, 2, 0, 0⟩ : DateTime) < toMin (⟨2026, 1, 20, 0, 0⟩ : DateTime) ∧
    (100 : ℚ) < 1000000 ∧
    urgency_score_default ⟨2026, 1, 1, 0, 0⟩ (some ⟨2026, 1, 20, 0, 0⟩)
        (some 100) false <
      urgency_score_default ⟨2026, 1, 1, 0, 0⟩ (some ⟨2026, 1, 2, 0, 0⟩)
        (some 1000000) true :=
  ⟨by decide, by decide,
   urgency_score_range_and_mono.2 ⟨2026, 1, 1, 0, 0⟩ ⟨2026, 1, 2, 0, 0⟩
     ⟨2026, 1, 20, 0, 0⟩ 1000000 100 (by decide) (by decide)⟩

section WindowLemmas

theorem iterWindowsFuel_nil (mode : WindowMode) (endDt : DateTime) (fuel : ℕ)
    (cursor : DateTime) (h : ¬ toMin cursor ≤ toMin endDt) :
    iterWindowsFuel fuel cursor endDt mode = [] := by
  cases fuel <;> simp [iterWindowsFuel, h]

theorem iterWindows_master (mode : WindowMode) (endDt : DateTime) (hend : ValidDT endDt) :
    ∀ fuel cursor, ValidDT cursor →
      toMin cursor ≤ toMin endDt →
      toMin endDt + 1 - toMin cursor ≤ fuel →
      (iterWindowsFuel fuel cursor endDt mode ≠ [] ∧
       (iterWindowsFuel fuel cursor endDt mode).head? =
         some (cursor, dtMin endDt (subOneMinute (windowNext mode cursor))) ∧
       (∀ w ∈ iterWindowsFuel fuel cursor endDt mode,
         ValidDT w.1 ∧ ValidDT w.2 ∧ toMin w.2 ≤ toMin endDt ∧
         toMin w.2 < toMin (windowNext mode w.1)) ∧
       (iterWindowsFuel fuel cursor endDt mode).Chain'
         (fun a b => b.1 = windowNext mode a.1 ∧ toMin b.1 = toMin a.2 + 1) ∧
       ((iterWindowsFuel fuel cursor endDt mode).getLast?).map (fun w => w.2) =
         some endDt) := by
  intro fuel
  induction fuel with
  | zero =>
    intro cursor _ hc hfuel
    omega
  | succ fuel ih =>
    intro cursor hcv hc hfuel
    have hnv : ValidDT (windowNext mode cursor) := valid_windowNext mode cursor hcv
    obtain ⟨hstep, _⟩ := toMin_windowNext mode cursor hcv
    have hnpos : 1 ≤ toMin (windowNext mode cursor) := by omega
    have hsv : ValidDT (subOneMinute (windowNext mode cursor)) :=
      valid_subOneMinute _ hnv hnpos
    have hsm : toMin (subOneMinute (windowNext mode cursor)) =
        toMin (windowNext mode cursor) - 1 := toMin_subOneMinute _ hnv hnpos
    simp only [iterWindowsFuel, if_pos hc]
    by_cases hc2 : toMin (windowNext mode cursor) ≤ toMin endDt
    · -- another window follows
      have hdtm : dtMin endDt (subOneMinute (windowNext mode cursor)) =
          subOneMinute (windowNext mode cursor) := by
        unfold dtMin
        rw [if_neg (by omega)]
      obtain ⟨tne, thead, tall, tchain, tlast⟩ :=
        ih (windowNext mode cursor) hnv hc2 (by omega)
      rw [hdtm]
      refine ⟨by simp, by simp, ?_, ?_, ?_⟩
      · intro w hw
        rcases List.mem_cons.mp hw with hw1 | hw2
        · subst hw1
          refine ⟨hcv, hsv, ?_, ?_⟩ <;> dsimp only <;> omega
        · exact tall w hw2
      · rw [List.chain'_cons']
        refine ⟨?_, tchain⟩
        intro y hy
        rw [thead] at hy
        simp only [Option.mem_def, Option.some_inj] at hy
        subst hy
        refine ⟨by dsimp only <;> rfl, by dsimp only; omega⟩
      · rcases hl : iterWindowsFuel fuel (windowNext mode cursor) endDt mode with
          _ | ⟨t, ts⟩
        · exact absurd hl tne
        · rw [List.getLast?_cons_cons]
          rw [hl] at tlast
          exact tlast
    · -- final window, clipped to the overall end
      have htail : iterWindowsFuel fuel (windowNext mode cursor) endDt mode = [] :=
        iterWindowsFuel_nil mode endDt fuel _ hc2
      have hdtm : dtMin endDt (subOneMinute (windowNext mode cursor)) = endDt := by
        unfold dtMin
        rw [if_pos (by omega)]
      rw [htail, hdtm]
      refine ⟨by simp, by simp, ?_, ?_, by simp⟩
      · intro w hw
        rcases List.mem_singleton.mp hw with rfl
        refine ⟨hcv, hend, ?_, ?_⟩ <;> dsimp only
        · exact le_refl _
        · omega
      · simp

end WindowLemmas

/-- C7: for every valid `start ≤ end` and both modes, `iter_windows`
yields a non-empty cover of `[start, end]`: the first window starts at
`start`, every window end stays within the overall end, daily windows
span less than one day and monthly windows end before the first instant
of the next month, consecutive windows are separated by exactly one
minute with the next start being the rolled cursor, and the final
window ends exactly at `end`. -/
theorem iter_windows_spec (startDt endDt : DateTime) (mode : WindowMode)
    (hs : ValidDT startDt) (he : ValidDT endDt) (hle : toMin startDt ≤ toMin endDt) :
    iter_windows startDt endDt mode ≠ [] ∧
    (iter_windows startDt endDt mode).head?.map (fun w => w.1) = some startDt ∧
    (∀ w ∈ iter_windows startDt endDt mode,
      ValidDT w.1 ∧ ValidDT w.2 ∧ toMin w.2 ≤ toMin endDt ∧
      (mode = .daily → toMin w.2 < toMin w.1 + 1440) ∧
      (mode = .monthly → toMin w.2 < toMin (nextMonthFirst w.1))) ∧
    (iter_windows startDt endDt mode).Chain'
      (fun a b => b.1 = windowNext mode a.1 ∧ toMin b.1 = toMin a.2 + 1) ∧
    ((iter_windows startDt endDt mode).getLast?).map (fun w => w.2) = some endDt := by
  obtain ⟨hne, hhead, hall, hchain, hlast⟩ :=
    iterWindows_master mode endDt he (toMin endDt + 1 - toMin startDt) startDt hs hle
      (le_refl _)
  refine ⟨hne, ?_, ?_, hchain, hlast⟩
  · unfold iter_windows
    rw [hhead]
    rfl
  · intro w hw
    obtain ⟨h1, h2, h3, h4⟩ := hall w hw
    refine ⟨h1, h2, h3, ?_, ?_⟩
    · intro hm
      subst hm
      have := toMin_addOneDay w.1 h1
      simp only [windowNext] at h4
      omega
    · intro hm
      subst hm
      simp only [windowNext] at h4
      exact h4

/-- Witness for C7 on a concrete monthly range crossing a month
boundary. -/
theorem iter_windows_spec_witness :
    ValidDT ⟨2025, 12, 15, 0, 0⟩ ∧ ValidDT ⟨2026, 2, 10, 12, 0⟩ ∧
    toMin ⟨2025, 12, 15, 0, 0⟩ ≤ toMin ⟨2026, 2, 10, 12, 0⟩ ∧
    iter_windows ⟨2025, 12, 15, 0, 0⟩ ⟨2026, 2, 10, 12, 0⟩ .monthly ≠ [] ∧
    ((iter_windows ⟨2025, 12, 15, 0, 0⟩ ⟨2026, 2, 10, 12, 0⟩ .monthly).getLast?).map
      (fun w => w.2) = some ⟨2026, 2, 10, 12, 0⟩ :=
  ⟨by decide, by decide, by decide,
   (iter_windows_spec ⟨2025, 12, 15, 0, 0⟩ ⟨2026, 2, 10, 12, 0⟩ .monthly
     (by decide) (by decide) (by decide)).1,
   (iter_windows_spec ⟨2025, 12, 15, 0, 0⟩ ⟨2026, 2, 10, 12, 0⟩ .monthly
     (by decide) (by decide) (by decide)).2.2.2.2⟩

section SortLemmas

theorem mem_insertLeadDesc (x b : LeadRecord) (l : List LeadRecord) :
    b ∈ insertLeadDesc x l ↔ b = x ∨ b ∈ l := by
  induction l with
  | nil => simp [insertLeadDesc]
  | cons y ys ih =>
    simp only [insertLeadDesc]
    split_ifs with hxy
    · rw [List.mem_cons, ih, List.mem_cons]
      tauto
    · exact List.mem_cons

theorem insertLeadDesc_sorted (x : LeadRecord) (l : List LeadRecord)
    (h : l.Pairwise (fun a b => b.urgency_score ≤ a.urgency_score)) :
    (insertLeadDesc x l).Pairwise (fun a b => b.urgency_score ≤ a.urgency_score) := by
  induction l with
  | nil => simp [insertLeadDesc]
  | cons y ys ih =>
    rw [List.pairwise_cons] at h
    simp only [insertLeadDesc]
    split_ifs with hxy
    · rw [List.pairwise_cons]
      refine ⟨?_, ih h.2⟩
      intro b hb
      rcases (mem_insertLeadDesc x b ys).mp hb with rfl | hb2
      · exact hxy
      · exact h.1 b hb2
    · rw [List.pairwise_cons]
      refine ⟨?_, List.pairwise_cons.mpr h⟩
      intro b hb
      rcases List.mem_cons.mp hb with rfl | hb2
      · omega
      · have := h.1 b hb2
        omega

theorem insertLeadDesc_filter (x : LeadRecord) (s : ℤ) (l : List LeadRecord)
    (hsorted : l.Pairwise (fun a b => b.urgency_score ≤ a.urgency_score)) :
    (insertLeadDesc x l).filter (fun r => r.urgency_score = s) =
      if x.urgency_score = s then
        l.filter (fun r => r.urgency_score = s) ++ [x]
      else l.filter (fun r => r.urgency_score = s) := by
  induction l with
  | nil =>
    by_cases hx : x.urgency_score = s <;> simp [insertLeadDesc, hx]
  | cons y ys ih =>
    rw [List.pairwise_cons] at hsorted
    simp only [insertLeadDesc]
    by_cases hxy : x.urgency_score ≤ y.urgency_score
    · rw [if_pos hxy]
      by_cases hx : x.urgency_score = s
      · rw [if_pos hx, List.filter_cons, List.filter_cons, ih hsorted.2, if_pos hx]
        split_ifs <;> simp
      · rw [if_neg hx, List.filter_cons, List.filter_cons, ih hsorted.2, if_neg hx]
    · rw [if_neg hxy]
      by_cases hx : x.urgency_score = s
      · -- x lands in front; every later record scores strictly below s
        have hempty : (y :: ys).filter (fun r => decide (r.urgency_score = s)) = [] := by
          rw [List.filter_eq_nil_iff]
          intro b hb
          simp only [decide_eq_true_eq]
          rcases List.mem_cons.mp hb with rfl | hb2
          · omega
          · have := hsorted.1 b hb2
            omega
        rw [if_pos hx, List.filter_cons_of_pos (by simpa using hx), hempty]
        simp
      · rw [if_neg hx, List.filter_cons_of_neg (by simpa using hx)]

theorem sortAux_sorted (l : List LeadRecord) :
    ∀ acc, acc.Pairwise (fun a b => b.urgency_score ≤ a.urgency_score) →
      (l.foldl (fun acc x => insertLeadDesc x acc) acc).Pairwise
        (fun a b => b.urgency_score ≤ a.urgency_score) := by
  induction l with
  | nil => intro acc h; exact h
  | cons x xs ih =>
    intro acc h
    exact ih _ (insertLeadDesc_sorted x acc h)

theorem sortAux_filter (s : ℤ) (l : List LeadRecord) :
    ∀ acc, acc.Pairwise (fun a b => b.urgency_score ≤ a.urgency_score) →
      (l.foldl (fun acc x => insertLeadDesc x acc) acc).filter
          (fun r => r.urgency_score = s) =
        acc.filter (fun r => r.urgency_score = s) ++
          l.filter (fun r => r.urgency_score = s) := by
  induction l with
  | nil => intro acc h; simp
  | cons x xs ih =>
    intro acc h
    rw [List.foldl_cons, ih _ (insertLeadDesc_sorted x acc h),
      insertLeadDesc_filter x s acc h, List.filter_cons]
    by_cases hx : x.urgency_score = s
    · rw [if_pos hx, if_pos (by simpa using hx)]
      simp
    · rw [if_neg hx, if_neg (by simpa using hx)]

theorem sortLeadsDesc_sorted (l : List LeadRecord) :
    (sortLeadsDesc l).Pairwise (fun a b => b.urgency_score ≤ a.urgency_score) :=
  sortAux_sorted l [] (List.Pairwise.nil)

theorem sortLeadsDesc_filter (l : List LeadRecord) (s : ℤ) :
    (sortLeadsDesc l).filter (fun r => r.urgency_score = s) =
      l.filter (fun r => r.urgency_score = s) := by
  have := sortAux_filter s l [] (List.Pairwise.nil)
  simpa [sortLeadsDesc] using this

end SortLemmas

/-- C6: the returned lead list is the `top_n`-prefix of the full sorted
list, has at most `top_n` entries, is sorted by urgency score
descending, and the sort is stable: for every score value, filtering the
sorted list gives exactly the construction-order records of that
score. -/
theorem build_leads_ranking (ns : List RawNotice) (as_of now : DateTime) (top_n : ℕ) :
    (build_leads ns as_of now top_n).1 =
      (sortLeadsDesc (lead_list ns as_of now)).take top_n ∧
    (build_leads ns as_of now top_n).1.length ≤ top_n ∧
    (build_leads ns as_of now top_n).1.Pairwise
      (fun a b => b.urgency_score ≤ a.urgency_score) ∧
    (build_leads ns as_of now top_n).1 <+: sortLeadsDesc (lead_list ns as_of now) ∧
    (∀ s : ℤ,
      (sortLeadsDesc (lead_list ns as_of now)).filter (fun r => r.urgency_score = s) =
        (lead_list ns as_of now).filter (fun r => r.urgency_score = s)) := by
  have heq : (build_leads ns as_of now top_n).1 =
      (sortLeadsDesc (lead_list ns as_of now)).take top_n := rfl
  refine ⟨heq, ?_, ?_, ?_, fun s => sortLeadsDesc_filter _ s⟩
  · rw [heq, List.length_take]
    exact min_le_left _ _
  · rw [heq]
    exact (sortLeadsDesc_sorted _).sublist (List.take_sublist _ _)
  · rw [heq]
    exact List.take_prefix _ _

section StatsLemmas

/-- Total of an occurrence counter. -/
def sumCounts (m : List (String × ℕ)) : ℕ := (m.map (fun e => e.2)).sum

theorem sumCounts_bumpStr (m : List (String × ℕ)) (k : String) :
    sumCounts (bumpStr m k) = sumCounts m + 1 := by
  induction m with
  | nil => simp [bumpStr, sumCounts]
  | cons e rest ih =>
    simp only [bumpStr]
    split_ifs with he
    · simp [sumCounts]
      omega
    · simp only [sumCounts, List.map_cons, List.sum_cons] at ih ⊢
      omega

theorem build_step_parts (as_of now : DateTime) (rkeys : List (String × String))
    (st : List LeadRecord × List (String × ℕ) × List (String × ℕ)) (n : RawNotice) :
    (build_step as_of now rkeys st n).1.length =
      st.1.length +
        (if isPositiveCategory (match_category n.notice_title).1 then 1 else 0) ∧
    sumCounts (build_step as_of now rkeys st n).2.2 = sumCounts st.2.2 + 1 ∧
    sumCounts (build_step as_of now rkeys st n).2.1 =
      sumCounts st.2.1 +
        (if isPositiveCategory (match_category n.notice_title).1 then 1 else 0) := by
  unfold build_step
  by_cases hp : isPositiveCategory (match_category n.notice_title).1
  · rw [if_pos hp]
    refine ⟨?_, ?_, ?_⟩ <;> dsimp only <;>
      simp [hp, sumCounts_bumpStr]
  · rw [if_neg hp]
    refine ⟨?_, ?_, ?_⟩ <;> dsimp only <;>
      simp [hp, sumCounts_bumpStr]

theorem build_foldl_counts (as_of now : DateTime) (rkeys : List (String × String))
    (ns : List RawNotice) :
    ∀ st, (ns.foldl (build_step as_of now rkeys) st).1.length =
        st.1.length +
          ns.countP (fun n => isPositiveCategory (match_category n.notice_title).1) ∧
      sumCounts (ns.foldl (build_step as_of now rkeys) st).2.2 =
        sumCounts st.2.2 + ns.length ∧
      sumCounts (ns.foldl (build_step as_of now rkeys) st).2.1 =
        sumCounts st.2.1 +
          ns.countP (fun n => isPositiveCategory (match_category n.notice_title).1) := by
  induction ns with
  | nil => intro st; simp
  | cons n rest ih =>
    intro st
    rw [List.foldl_cons]
    obtain ⟨ih1, ih2, ih3⟩ := ih (build_step as_of now rkeys st n)
    obtain ⟨hs1, hs2, hs3⟩ := build_step_parts as_of now rkeys st n
    rw [List.countP_cons, List.length_cons, ih1, ih2, ih3, hs1, hs2, hs3]
    by_cases hp : isPositiveCategory (match_category n.notice_title).1
    · simp only [hp]
      refine ⟨by omega, by omega, by omega⟩
    · simp only [Bool.not_eq_true] at hp
      simp only [hp]
      refine ⟨by omega, by omega, by omega⟩

end StatsLemmas

/-- C5: the summary statistics are computed over the full deduplicated
batch before truncation: they do not depend on `top_n` (and `top_n = 0`
still yields them with an empty lead list), `total_notices` is the batch
size, `matched_notices` counts the positive matches, the work-type
counter counts every notice and the category counter every match. -/
theorem build_leads_stats (ns : List RawNotice) (as_of now : DateTime) (top_n : ℕ) :
    (build_leads ns as_of now top_n).2 = (build_leads ns as_of now 0).2 ∧
    (build_leads ns as_of now 0).1 = [] ∧
    (build_leads ns as_of now top_n).2.total_notices = ns.length ∧
    (build_leads ns as_of now top_n).2.matched_notices =
      ns.countP (fun n => isPositiveCategory (match_category n.notice_title).1) ∧
    sumCounts (build_leads ns as_of now top_n).2.by_work_type = ns.length ∧
    sumCounts (build_leads ns as_of now top_n).2.by_category =
      ns.countP (fun n => isPositiveCategory (match_category n.notice_title).1) := by
  obtain ⟨h1, h2, h3⟩ :=
    build_foldl_counts as_of now (_find_repeated_titles ns) ns ([], [], [])
  simp only [List.length_nil, sumCounts, List.map_nil, List.sum_nil, Nat.zero_add] at h1 h2 h3
  exact ⟨rfl, rfl, rfl, h1, h2, h3⟩

section RepeatLemmas

/-- First-match lookup in a count table (dict access). -/
def lookupCount : List ((String × String) × ℕ) → (String × String) → ℕ
  | [], _ => 0
  | e :: rest, k => if e.1 = k then e.2 else lookupCount rest k

theorem lookupCount_bumpCount (m : List ((String × String) × ℕ))
    (k j : String × String) :
    lookupCount (bumpCount m k) j =
      if j = k then lookupCount m k + 1 else lookupCount m j := by
  induction m with
  | nil =>
    by_cases hj : j = k
    · subst hj
      simp [bumpCount, lookupCount]
    · simp [bumpCount, lookupCount, hj, Ne.symm hj]
  | cons e rest ih =>
    by_cases hj : j = k
    · subst hj
      by_cases he : e.1 = j
      · simp [bumpCount, lookupCount, he]
      · simp [bumpCount, lookupCount, he, ih]
    · have hkj : ¬ (k = j) := fun h => hj h.symm
      by_cases he : e.1 = k
      · have hne : ¬ (e.1 = j) := fun h => hj (h.symm.trans he)
        simp [bumpCount, lookupCount, he, hj, hne, hkj]
      · by_cases hej : e.1 = j
        · simp [bumpCount, lookupCount, he, hej, hj, hkj]
        · simp [bumpCount, lookupCount, he, hej, hj, hkj, ih]

theorem lookupCount_foldl (ns : List RawNotice) :
    ∀ m k, lookupCount (ns.foldl (fun m n => bumpCount m (repeatKey n)) m) k =
      lookupCount m k + ns.countP (fun n => decide (repeatKey n = k)) := by
  induction ns with
  | nil => intro m k; simp
  | cons n rest ih =>
    intro m k
    rw [List.foldl_cons, ih, lookupCount_bumpCount, List.countP_cons]
    by_cases h : repeatKey n = k
    · rw [if_pos h.symm]
      simp [h]
      omega
    · rw [if_neg (fun hh => h hh.symm)]
      simp [h]

theorem bumpCount_keys (m : List ((String × String) × ℕ)) (k : String × String) :
    (bumpCount m k).map (fun e => e.1) =
      if k ∈ m.map (fun e => e.1) then m.map (fun e => e.1)
      else m.map (fun e => e.1) ++ [k] := by
  induction m with
  | nil => simp [bumpCount]
  | cons e rest ih =>
    simp only [bumpCount]
    by_cases he : e.1 = k
    · rw [if_pos he]
      simp [he]
    · have he' : ¬ (k = e.1) := fun hh => he hh.symm
      rw [if_neg he]
      simp only [List.map_cons, ih]
      by_cases hk : k ∈ rest.map (fun e => e.1)
      · simp [hk, he', List.mem_cons]
      · simp [hk, he', List.mem_cons]

theorem foldl_bump_keys_nodup (ns : List RawNotice) :
    ∀ m, (m.map (fun e => e.1)).Nodup →
      ((ns.foldl (fun m n => bumpCount m (repeatKey n)) m).map (fun e => e.1)).Nodup := by
  induction ns with
  | nil => intro m h; exact h
  | cons n rest ih =>
    intro m h
    rw [List.foldl_cons]
    refine ih _ ?_
    rw [bumpCount_keys]
    split_ifs with hk
    · exact h
    · refine List.nodup_append.mpr ⟨h, List.nodup_singleton _, ?_⟩
      intro a ha hb
      rw [List.mem_singleton] at hb
      subst hb
      exact hk ha

theorem lookupCount_of_mem (m : List ((String × String) × ℕ))
    (hnd : (m.map (fun e => e.1)).Nodup) (e : (String × String) × ℕ) (he : e ∈ m) :
    lookupCount m e.1 = e.2 := by
  induction m with
  | nil => cases he
  | cons x rest ih =>
    simp only [List.map_cons, List.nodup_cons] at hnd
    rcases List.mem_cons.mp he with rfl | he2
    · simp [lookupCount]
    · have hne : ¬ (x.1 = e.1) := by
        intro hh
        exact hnd.1 (hh ▸ List.mem_map_of_mem (fun e => e.1) he2)
      simp only [lookupCount]
      rw [if_neg hne]
      exact ih hnd.2 he2

theorem exists_of_lookupCount_pos (m : List ((String × String) × ℕ))
    (k : String × String) (h : lookupCount m k ≠ 0) :
    ∃ e, e ∈ m ∧ e.1 = k ∧ e.2 = lookupCount m k := by
  induction m with
  | nil => simp [lookupCount] at h
  | cons e rest ih =>
    by_cases he : e.1 = k
    · refine ⟨e, List.mem_cons_self _ _, he, ?_⟩
      simp only [lookupCount]
      rw [if_pos he]
    · simp only [lookupCount] at h ⊢
      rw [if_neg he] at h ⊢
      obtain ⟨f, hf1, hf2, hf3⟩ := ih h
      exact ⟨f, List.mem_cons_of_mem _ hf1, hf2, hf3⟩

end RepeatLemmas

/-- C8: a key is in `_find_repeated_titles` exactly when its
(agency, normalized title) group occurs at least twice in the batch; the
lead loop marks a notice repeat precisely by that membership; and the
normalisation strips `20xx` years and `N차`/`N회` ordinals, collapses
whitespace and lowercases. -/
theorem find_repeated_titles_spec :
    (∀ (ns : List RawNotice) (k : String × String),
      k ∈ _find_repeated_titles ns ↔
        2 ≤ (ns.map repeatKey).countP (fun j => decide (j = k))) ∧
    (∀ (ns : List RawNotice) (as_of now : DateTime)
      (st : List LeadRecord × List (String × ℕ) × List (String × ℕ)) (n : RawNotice),
      isPositiveCategory (match_category n.notice_title).1 = true →
      (build_step as_of now (_find_repeated_titles ns) st n).1 =
        st.1 ++ [mkLead as_of now (decide (repeatKey n ∈ _find_repeated_titles ns)) n
          (match_category n.notice_title).1 (match_category n.notice_title).2.1]) ∧
    _normalize_title ("2024년 제3차 리더십 교육") = ("년 제 리더십 교육") ∧
    _normalize_title ("HRD 2025 Workshop 2회") = ("hrd workshop") := by
  refine ⟨?_, ?_, by decide, by decide⟩
  · intro ns k
    have hnd : (((ns.foldl (fun m n => bumpCount m (repeatKey n)) [])).map
        (fun e => e.1)).Nodup := foldl_bump_keys_nodup ns [] (by simp)
    have hcnt : lookupCount (ns.foldl (fun m n => bumpCount m (repeatKey n)) []) k =
        (ns.map repeatKey).countP (fun j => decide (j = k)) := by
      rw [lookupCount_foldl ns [] k, List.countP_map]
      simp only [lookupCount, Nat.zero_add]
      rfl
    unfold _find_repeated_titles
    rw [List.mem_map]
    constructor
    · rintro ⟨e, he, rfl⟩
      rw [List.mem_filter] at he
      have := lookupCount_of_mem _ hnd e he.1
      rw [this] at hcnt
      have h2 : 2 ≤ e.2 := by simpa using he.2
      omega
    · intro h2
      have hne : lookupCount (ns.foldl (fun m n => bumpCount m (repeatKey n)) []) k ≠ 0 := by
        omega
      obtain ⟨e, he, hek, hev⟩ := exists_of_lookupCount_pos _ k hne
      refine ⟨e, ?_, hek⟩
      rw [List.mem_filter]
      refine ⟨he, ?_⟩
      simp only [decide_eq_true_eq]
      omega
  · intro ns as_of now st n hp
    unfold build_step
    rw [if_pos hp]

section RetryLemmas

/-- An attempt outcome that the loop retries: a rate-limit or
server-class HTTP status, or a non-HTTP failure. -/
def retryableB {α : Type} (o : FetchOutcome α) : Bool :=
  match o with
  | .ok _ => false
  | .http c => decide (c = 429 ∨ 500 ≤ c)
  | .failed => true

/-- The cause recorded in `last_error` for a retryable outcome. -/
def causeOf {α : Type} (o : FetchOutcome α) : ErrCause :=
  match o with
  | .http c => .httpCode c
  | _ => .generic

theorem go_success {α : Type} (responses : ℕ → FetchOutcome α) (fuel attempt : ℕ)
    (v : α) (h : responses attempt = .ok v) (lastE : Option ErrCause) (sleeps : List ℕ) :
    request_json_go responses (fuel + 1) attempt lastE sleeps =
      .success v attempt sleeps := by
  simp only [request_json_go]
  rw [h]

theorem go_retry_step {α : Type} (responses : ℕ → FetchOutcome α) (fuel attempt : ℕ)
    (lastE : Option ErrCause) (sleeps : List ℕ)
    (ha : retryableB (responses attempt) = true) (hne : attempt ≠ MAX_RETRIES) :
    request_json_go responses (fuel + 1) attempt lastE sleeps =
      request_json_go responses fuel (attempt + 1) (some (causeOf (responses attempt)))
        (sleeps ++ [min (2 ^ attempt) 8]) := by
  rcases h : responses attempt with v | c | _
  · rw [h] at ha
    simp [retryableB] at ha
  · rw [h] at ha
    simp only [retryableB, decide_eq_true_eq] at ha
    simp only [request_json_go]
    rw [h]
    dsimp only [causeOf]
    rw [if_neg (by omega), if_pos ha, if_neg hne]
  · simp only [request_json_go]
    rw [h]
    dsimp only [causeOf]
    rw [if_neg hne]

theorem go_retry_last {α : Type} (responses : ℕ → FetchOutcome α) (fuel : ℕ)
    (lastE : Option ErrCause) (sleeps : List ℕ)
    (ha : retryableB (responses MAX_RETRIES) = true) :
    request_json_go responses (fuel + 1) MAX_RETRIES lastE sleeps =
      .apiFail (some (causeOf (responses MAX_RETRIES))) sleeps := by
  rcases h : responses MAX_RETRIES with v | c | _
  · rw [h] at ha
    simp [retryableB] at ha
  · rw [h] at ha
    simp only [retryableB, decide_eq_true_eq] at ha
    simp only [request_json_go]
    rw [h]
    dsimp only [causeOf]
    rw [if_neg (by omega), if_pos ha]
    simp
  · simp only [request_json_go]
    rw [h]
    dsimp only [causeOf]
    simp

end RetryLemmas

/-- C9: an authorization status (401/403) on the first attempt aborts
immediately with no sleep; four consecutive retryable outcomes
(429, server-class, or non-HTTP failure) exhaust the retry budget after
sleeping `min(2^attempt, 8) = 2, 4, 8` between attempts and fail with
the last observed cause; and a successful parse at attempt `k ≤ 4`
short-circuits with only the earlier sleeps performed. -/
theorem request_json_spec {α : Type} (responses : ℕ → FetchOutcome α) :
    (∀ c, responses 1 = .http c → (c = 401 ∨ c = 403) →
      request_json responses = .authFatal c []) ∧
    ((∀ a, a ≤ 4 → 1 ≤ a → retryableB (responses a) = true) →
      request_json responses = .apiFail (some (causeOf (responses 4))) [2, 4, 8]) ∧
    (∀ k v, responses k = .ok v → 1 ≤ k → k ≤ 4 →
      (∀ a, a < k → 1 ≤ a → retryableB (responses a) = true) →
      request_json responses = .success v k
        ((List.range (k - 1)).map (fun i => min (2 ^ (i + 1)) 8))) := by
  refine ⟨?_, ?_, ?_⟩
  · intro c h1 hc
    unfold request_json MAX_RETRIES
    simp only [request_json_go]
    rw [h1]
    dsimp only
    rw [if_pos hc]
  · intro hr
    have h1 := hr 1 (by omega) (by omega)
    have h2 := hr 2 (by omega) (by omega)
    have h3 := hr 3 (by omega) (by omega)
    have h4 := hr 4 (by omega) (by omega)
    have hlist : ((([] : List ℕ) ++ [min (2 ^ 1) 8]) ++ [min (2 ^ 2) 8]) ++
        [min (2 ^ 3) 8] = [2, 4, 8] := by decide
    calc request_json responses
        = request_json_go responses (3 + 1) 1 none [] := rfl
      _ = request_json_go responses (2 + 1) 2 (some (causeOf (responses 1)))
            ([] ++ [min (2 ^ 1) 8]) := go_retry_step responses 3 1 none [] h1 (by decide)
      _ = request_json_go responses (1 + 1) 3 (some (causeOf (responses 2)))
            (([] ++ [min (2 ^ 1) 8]) ++ [min (2 ^ 2) 8]) :=
          go_retry_step responses 2 2 _ _ h2 (by decide)
      _ = request_json_go responses (0 + 1) 4 (some (causeOf (responses 3)))
            ((([] ++ [min (2 ^ 1) 8]) ++ [min (2 ^ 2) 8]) ++ [min (2 ^ 3) 8]) :=
          go_retry_step responses 1 3 _ _ h3 (by decide)
      _ = .apiFail (some (causeOf (responses 4)))
            ((([] ++ [min (2 ^ 1) 8]) ++ [min (2 ^ 2) 8]) ++ [min (2 ^ 3) 8]) :=
          go_retry_last responses 0 _ _ h4
      _ = .apiFail (some (causeOf (responses 4))) [2, 4, 8] := by rw [hlist]
  · intro k v hk hk1 hk4 hr
    interval_cases k
    · exact go_success responses 3 1 v hk none []
    · have h1 := hr 1 (by omega) (by omega)
      calc request_json responses
          = request_json_go responses (3 + 1) 1 none [] := rfl
        _ = request_json_go responses (2 + 1) 2 (some (causeOf (responses 1)))
              ([] ++ [min (2 ^ 1) 8]) := go_retry_step responses 3 1 none [] h1 (by decide)
        _ = .success v 2 ([] ++ [min (2 ^ 1) 8]) := go_success responses 2 2 v hk _ _
        _ = .success v 2 ((List.range (2 - 1)).map (fun i => min (2 ^ (i + 1)) 8)) := by
            rw [show ([] : List ℕ) ++ [min (2 ^ 1) 8] =
              (List.range (2 - 1)).map (fun i => min (2 ^ (i + 1)) 8) from by decide]
    · have h1 := hr 1 (by omega) (by omega)
      have h2 := hr 2 (by omega) (by omega)
      calc request_json responses
          = request_json_go responses (3 + 1) 1 none [] := rfl
        _ = request_json_go responses (2 + 1) 2 (some (causeOf (responses 1)))
              ([] ++ [min (2 ^ 1) 8]) := go_retry_step responses 3 1 none [] h1 (by decide)
        _ = request_json_go responses (1 + 1) 3 (some (causeOf (responses 2)))
              (([] ++ [min (2 ^ 1) 8]) ++ [min (2 ^ 2) 8]) :=
            go_retry_step responses 2 2 _ _ h2 (by decide)
        _ = .success v 3 (([] ++ [min (2 ^ 1) 8]) ++ [min (2 ^ 2) 8]) :=
            go_success responses 1 3 v hk _ _
        _ = .success v 3 ((List.range (3 - 1)).map (fun i => min (2 ^ (i + 1)) 8)) := by
            rw [show (([] : List ℕ) ++ [min (2 ^ 1) 8]) ++ [min (2 ^ 2) 8] =
              (List.range (3 - 1)).map (fun i => min (2 ^ (i + 1)) 8) from by decide]
    · have h1 := hr 1 (by omega) (by omega)
      have h2 := hr 2 (by omega) (by omega)
      have h3 := hr 3 (by omega) (by omega)
      calc request_json responses
          = request_json_go responses (3 + 1) 1 none [] := rfl
        _ = request_json_go responses (2 + 1) 2 (some (causeOf (responses 1)))
              ([] ++ [min (2 ^ 1) 8]) := go_retry_step responses 3 1 none [] h1 (by decide)
        _ = request_json_go responses (1 + 1) 3 (some (causeOf (responses 2)))
              (([] ++ [min (2 ^ 1) 8]) ++ [min (2 ^ 2) 8]) :=
            go_retry_step responses 2 2 _ _ h2 (by decide)
        _ = request_json_go responses (0 + 1) 4 (some (causeOf (responses 3)))
              ((([] ++ [min (2 ^ 1) 8]) ++ [min (2 ^ 2) 8]) ++ [min (2 ^ 3) 8]) :=
            go_retry_step responses 1 3 _ _ h3 (by decide)
        _ = .success v 4 ((([] ++ [min (2 ^ 1) 8]) ++ [min (2 ^ 2) 8]) ++ [min (2 ^ 3) 8]) :=
            go_success responses 0 4 v hk _ _
        _ = .success v 4 ((List.range (4 - 1)).map (fun i => min (2 ^ (i + 1)) 8)) := by
            rw [show ((([] : List ℕ) ++ [min (2 ^ 1) 8]) ++ [min (2 ^ 2) 8]) ++
              [min (2 ^ 3) 8] =
              (List.range (4 - 1)).map (fun i => min (2 ^ (i + 1)) 8) from by decide]

/-- Witness for C9: two retryable failures, then success on attempt 3
after sleeping 2 and 4 time units. -/
theorem request_json_spec_witness :
    (fun a => if a = 3 then FetchOutcome.ok (37 : ℕ) else .http 503) 3 = .ok 37 ∧
    (∀ a, a < 3 → 1 ≤ a →
      retryableB ((fun a => if a = 3 then FetchOutcome.ok (37 : ℕ) else .http 503) a) =
        true) ∧
    request_json (fun a => if a = 3 then FetchOutcome.ok (37 : ℕ) else .http 503) =
      .success 37 3 [2, 4] :=
  ⟨by decide, by decide,
   by
    have h := (request_json_spec
      (fun a => if a = 3 then FetchOutcome.ok (37 : ℕ) else .http 503)).2.2 3 37
      (by decide) (by decide) (by decide) (by decide)
    rw [h]
    rfl⟩

/-- Witness for C8: two notices from one agency whose titles normalise
to the same string are both marked repeat, and the lead loop consumes
exactly that membership flag. -/
theorem find_repeated_titles_spec_witness :
    2 ≤ (([⟨"1", "1", "리더십 교육", "용역", "AG", "", "", none, "u"⟩,
        ⟨"2", "1", "2024 리더십 교육", "용역", "AG", "", "", none, "u"⟩] :
        List RawNotice).map repeatKey).countP
      (fun j => decide (j = ("AG", "리더십 교육"))) ∧
    ("AG", "리더십 교육") ∈ _find_repeated_titles
      [⟨"1", "1", "리더십 교육", "용역", "AG", "", "", none, "u"⟩,
       ⟨"2", "1", "2024 리더십 교육", "용역", "AG", "", "", none, "u"⟩] ∧
    isPositiveCategory (match_category ("리더십 교육")).1 = true ∧
    (build_step ⟨2026, 1, 1, 0, 0⟩ ⟨2026, 1, 1, 0, 0⟩
      (_find_repeated_titles
        [⟨"1", "1", "리더십 교육", "용역", "AG", "", "", none, "u"⟩,
         ⟨"2", "1", "2024 리더십 교육", "용역", "AG", "", "", none, "u"⟩])
      ([], [], []) ⟨"1", "1", "리더십 교육", "용역", "AG", "", "", none, "u"⟩).1 =
      [] ++ [mkLead ⟨2026, 1, 1, 0, 0⟩ ⟨2026, 1, 1, 0, 0⟩
        (decide (repeatKey ⟨"1", "1", "리더십 교육", "용역", "AG", "", "", none, "u"⟩ ∈
          _find_repeated_titles
            [⟨"1", "1", "리더십 교육", "용역", "AG", "", "", none, "u"⟩,
             ⟨"2", "1", "2024 리더십 교육", "용역", "AG", "", "", none, "u"⟩]))
        ⟨"1", "1", "리더십 교육", "용역", "AG", "", "", none, "u"⟩
        (match_category ("리더십 교육")).1 (match_category ("리더십 교육")).2.1] :=
  ⟨by decide,
   (find_repeated_titles_spec.1 _ _).mpr (by decide),
   by decide,
   find_repeated_titles_spec.2.1 _ _ _ _ _ (by decide)⟩

end G2B
